import Mathlib

/-!
Verification of the document segmentation / normalization / timeline-merge
pipeline of the bt4103-group07 repository.

The Python sources embedded here are:
  * `lab_results_parser.py`   (class `LabResultParser`: `_clean_test_name`,
    `_parse_all_tests`, `parse`),
  * `medical_records_parser.py` (class `MedicalRecordsParser`: metadata
    parsing, admin-noise removal, normalization, subsection splitting,
    enrichment, `build_timeline`),
  * `subpackage/medical-files-processing/document_parser.py`
    (`MedicalRecordsParser.extract_dmo_sections`, the line-oriented
    clinical-note state machine), and
  * `file_upload_processor.py` (`_process_single_file`,
    `create_combined_patient_timeline`).

Strings are modelled as `List Char` wrapped in `String`.  Python regular
expressions are embedded by a small backtracking matcher (`RE`, `reRuns`)
whose candidate lists reproduce the backtracking priority order of CPython
`re` (leftmost position first, then depth-first over quantifier choices and
alternatives); a few simple regexes are hand-specialized where the pattern
is deterministic.  Case mapping, `\w`, `\d`, `isalnum` and `\s` are modelled
over ASCII (all pattern literals in the sources are ASCII).
-/

namespace BT4103

/-- ASCII lower-casing (Python `str.lower` restricted to ASCII letters). -/
def asciiLower (c : Char) : Char :=
  if 'A' ≤ c ∧ c ≤ 'Z' then Char.ofNat (c.toNat + 32) else c

/-- ASCII upper-casing (Python `str.upper` restricted to ASCII letters). -/
def asciiUpper (c : Char) : Char :=
  if 'a' ≤ c ∧ c ≤ 'z' then Char.ofNat (c.toNat - 32) else c

/-- Python whitespace (`\s`, `str.strip`) over ASCII. -/
def isPySpace (c : Char) : Bool :=
  c = ' ' || c = '\t' || c = '\n' || c = '\r' || c = '\x0b' || c = '\x0c'

def isAsciiDigit (c : Char) : Bool := '0' ≤ c && c ≤ '9'

def isAsciiAlpha (c : Char) : Bool :=
  ('a' ≤ c && c ≤ 'z') || ('A' ≤ c && c ≤ 'Z')

/-- Python `isalnum` / regex alphanumerics, ASCII fragment. -/
def isAlnum (c : Char) : Bool := isAsciiAlpha c || isAsciiDigit c

/-- Python regex `\w`, ASCII fragment. -/
def isWordChar (c : Char) : Bool := isAlnum c || c = '_'

/-- Case-insensitive character comparison. -/
def ciChar (a b : Char) : Bool := asciiLower a = asciiLower b

/-- Case-insensitive "is `p` a prefix of `cs`". -/
def ciStarts : List Char → List Char → Bool
  | [], _ => true
  | _ :: _, [] => false
  | p :: ps, c :: cs => ciChar p c && ciStarts ps cs

/-- Case-sensitive "is `p` a prefix of `cs`". -/
def exStarts : List Char → List Char → Bool
  | [], _ => true
  | _ :: _, [] => false
  | p :: ps, c :: cs => p == c && exStarts ps cs

/-- Does `pat` occur as a (contiguous) substring of `cs`?  Python `in`. -/
def containsSub (pat : List Char) : List Char → Bool
  | [] => exStarts pat []
  | c :: cs => exStarts pat (c :: cs) || containsSub pat cs

/-- `str.strip()` from the right. -/
def dropWsEnd (cs : List Char) : List Char :=
  (cs.reverse.dropWhile isPySpace).reverse

/-- Python `str.strip()` (ASCII whitespace). -/
def stripChars (cs : List Char) : List Char :=
  dropWsEnd (cs.dropWhile isPySpace)

def pyStrip (s : String) : String := .mk (stripChars s.data)

/-- Python `str.splitlines` line-break characters (ASCII fragment plus the
    Unicode breaks Python recognizes). -/
def isLineBreak (c : Char) : Bool :=
  c = '\n' || c = '\r' || c = '\x0b' || c = '\x0c' ||
  c = '\x1c' || c = '\x1d' || c = '\x1e' || c = '\x85' ||
  c = '\u2028' || c = '\u2029'

def splitlinesGo : List Char → List Char → List String
  | acc, [] => if acc.isEmpty then [] else [.mk acc.reverse]
  | acc, '\r' :: '\n' :: rest => .mk acc.reverse :: splitlinesGo [] rest
  | acc, c :: rest =>
    if isLineBreak c then .mk acc.reverse :: splitlinesGo [] rest
    else splitlinesGo (c :: acc) rest

/-- Python `str.splitlines()`. -/
def pySplitlines (s : String) : List String := splitlinesGo [] s.data

/-- `"\n".join`-style upper-casing helper. -/
def asciiUpperStr (s : String) : String := .mk (s.data.map asciiUpper)

def asciiLowerStr (s : String) : String := .mk (s.data.map asciiLower)

/-! ## A small backtracking regex matcher

`reRuns re prev cs` returns, in CPython backtracking priority order, every
pair `(lastConsumed, remainder)` such that `re` can match a prefix of `cs`
leaving `remainder`; `prev` is the character immediately before `cs` in the
enclosing string (needed for the MULTILINE `^` anchor and `\b`).  The head
of the list is the match CPython's engine commits to. -/

inductive RE where
  /-- empty pattern -/
  | eps : RE
  /-- case-insensitive literal (patterns compiled with `re.IGNORECASE`) -/
  | lit : List Char → RE
  /-- case-sensitive literal -/
  | lits : List Char → RE
  /-- character class with counted repetition: predicate, min, max
      (`none` = unbounded) and laziness flag -/
  | cls : (Char → Bool) → Nat → Option Nat → Bool → RE
  | cat : RE → RE → RE
  | alt2 : RE → RE → RE
  /-- greedy `?` -/
  | opt : RE → RE
  /-- MULTILINE `^` -/
  | bol : RE
  /-- MULTILINE `$` -/
  | eol : RE

/-- Last character of the first `n` characters of `cs`, falling back to
    `prev` when nothing is consumed. -/
def lastConsumed (prev : Option Char) (cs : List Char) (n : Nat) : Option Char :=
  match (cs.take n).getLast? with
  | some c => some c
  | none => prev

/-- Length of the maximal prefix of `cs` satisfying `p`. -/
def clsRun (p : Char → Bool) : List Char → Nat
  | [] => 0
  | c :: cs => if p c then clsRun p cs + 1 else 0

def reRuns : RE → Option Char → List Char → List (Option Char × List Char)
  | .eps, prev, cs => [(prev, cs)]
  | .lit p, prev, cs =>
    if ciStarts p cs then [(lastConsumed prev cs p.length, cs.drop p.length)] else []
  | .lits p, prev, cs =>
    if exStarts p cs then [(lastConsumed prev cs p.length, cs.drop p.length)] else []
  | .cls p lo hi lazy, prev, cs =>
    let m := clsRun p cs
    let m := match hi with
      | some h => min m h
      | none => m
    if m < lo then []
    else
      let is := (List.range (m - lo + 1)).map (· + lo)
      let is := if lazy then is else is.reverse
      is.map fun i => (lastConsumed prev cs i, cs.drop i)
  | .cat a b, prev, cs =>
    (reRuns a prev cs).flatMap fun pr => reRuns b pr.1 pr.2
  | .alt2 a b, prev, cs => reRuns a prev cs ++ reRuns b prev cs
  | .opt a, prev, cs => reRuns a prev cs ++ [(prev, cs)]
  | .bol, prev, cs =>
    if prev = Option.none ∨ prev = some '\n' then [(prev, cs)] else []
  | .eol, prev, cs =>
    if cs.isEmpty || cs.head? = some '\n' then [(prev, cs)] else []

/-- `re.sub(pattern, repl, s)` with a constant replacement: scan left to
    right, commit to the engine's preferred match at the leftmost matching
    position, emit the replacement and continue after the match.  Our
    patterns never match the empty string; the zero-width case advances one
    character as CPython does. -/
def reSubGo (r : RE) (repl : List Char) : Nat → Option Char → List Char → List Char
  | 0, _, cs => cs
  | fuel + 1, prev, cs =>
    match (reRuns r prev cs).head? with
    | some (p2, rest) =>
      if cs.length - rest.length = 0 then
        match cs with
        | [] => repl
        | c :: cs2 => repl ++ c :: reSubGo r repl fuel (some c) cs2
      else repl ++ reSubGo r repl fuel p2 rest
    | Option.none =>
      match cs with
      | [] => []
      | c :: cs2 => c :: reSubGo r repl fuel (some c) cs2

def reSub (r : RE) (repl : String) (s : String) : String :=
  .mk (reSubGo r repl.data (s.data.length + 1) Option.none s.data)

/-- `re.search(pattern, s)` as a Boolean. -/
def reSearchGo (r : RE) : Nat → Option Char → List Char → Bool
  | 0, _, _ => false
  | fuel + 1, prev, cs =>
    if (reRuns r prev cs).isEmpty then
      match cs with
      | [] => false
      | c :: cs2 => reSearchGo r fuel (some c) cs2
    else true

def reSearch (r : RE) (s : String) : Bool :=
  reSearchGo r (s.data.length + 1) Option.none s.data

/-- One position of a `pre (cap) post` search: the first pre-candidate and
    cap-candidate (in backtracking order) under which `post` matches; the
    returned characters are the text consumed by the capture group. -/
def tryCapAt (pre cap post : RE) (prev : Option Char) (cs : List Char) :
    Option (List Char) :=
  (reRuns pre prev cs).findSome? fun pr =>
    (reRuns cap pr.1 pr.2).findSome? fun qr =>
      if (reRuns post qr.1 qr.2).isEmpty then Option.none
      else some (pr.2.take (pr.2.length - qr.2.length))

/-- `re.search` with a single capture group, returning `group(1)`. -/
def reSearchCapGo (pre cap post : RE) :
    Nat → Option Char → List Char → Option (List Char)
  | 0, _, _ => Option.none
  | fuel + 1, prev, cs =>
    match tryCapAt pre cap post prev cs with
    | some g => some g
    | Option.none =>
      match cs with
      | [] => Option.none
      | c :: cs2 => reSearchCapGo pre cap post fuel (some c) cs2

def reSearchCap (pre cap post : RE) (s : String) : Option String :=
  (reSearchCapGo pre cap post (s.data.length + 1) Option.none s.data).map .mk

/-- `\s*` (greedy). -/
def wsStarG : RE := .cls isPySpace 0 Option.none false

/-- `\s+` (greedy). -/
def wsPlusG : RE := .cls isPySpace 1 Option.none false

/-- `.` (no DOTALL), any number, greedy: `.*`. -/
def dotStarG : RE := .cls (fun c => ¬ c = '\n') 0 Option.none false

/-- `.*?` (no DOTALL). -/
def dotStarL : RE := .cls (fun c => ¬ c = '\n') 0 Option.none true

/-! ## Hand-specialized date / date-time matchers

The patterns `(\d{1,2})-([A-Za-z]{3})-(\d{4})` and
`(\d{1,2}-[A-Za-z]{3}-\d{4}\s+\d{2}:\d{2})\s*` are deterministic once the
greedy `\d{1,2}` choice is resolved: a two-digit day is preferred and the
one-digit fallback is only viable when the second character is `'-'`, so no
other backtracking can occur (every later piece has a fixed width or is a
`\s` run followed by a character no `\s` can match). -/

/-- Exactly `n` characters satisfying `p`. -/
def expectCount (p : Char → Bool) : Nat → List Char → Option (List Char × List Char)
  | 0, cs => some ([], cs)
  | _ + 1, [] => Option.none
  | n + 1, c :: cs =>
    if p c then (expectCount p n cs).map fun pr => (c :: pr.1, pr.2)
    else Option.none

/-- The three capture groups of the day-Mon-year date pattern. -/
structure DateParts where
  day : List Char
  mon : List Char
  year : List Char

/-- The text matched by the whole date pattern. -/
def DateParts.chars (dp : DateParts) : List Char :=
  dp.day ++ '-' :: dp.mon ++ '-' :: dp.year

/-- Anchored match of `\d{k}-[A-Za-z]{3}-\d{4}` for a fixed day width. -/
def matchDateWithDay (k : Nat) (cs : List Char) :
    Option (DateParts × List Char) :=
  match expectCount isAsciiDigit k cs with
  | Option.none => Option.none
  | some (day, r1) =>
    match r1 with
    | '-' :: r2 =>
      match expectCount isAsciiAlpha 3 r2 with
      | Option.none => Option.none
      | some (mon, r3) =>
        match r3 with
        | '-' :: r4 =>
          match expectCount isAsciiDigit 4 r4 with
          | Option.none => Option.none
          | some (year, r5) => some (⟨day, mon, year⟩, r5)
        | _ => Option.none
    | _ => Option.none

/-- Anchored match of `(\d{1,2})-([A-Za-z]{3})-(\d{4})` (`re.match`), the
    greedy two-digit day tried first. -/
def matchDateParts (cs : List Char) : Option (DateParts × List Char) :=
  (matchDateWithDay 2 cs).orElse fun _ => matchDateWithDay 1 cs

/-- Does the whole string have the `DD-Mon-YYYY` shape (one or two day
    digits, three letters, four year digits)? -/
def isDayMonYear (s : String) : Bool :=
  match matchDateParts s.data with
  | some (_, r) => r.isEmpty
  | Option.none => false

/-- Anchored match of `(\d{1,2}-[A-Za-z]{3}-\d{4}\s+\d{2}:\d{2})\s*`: returns
    the captured stamp and the remainder after the trailing `\s*`.  The
    `\s+` run is maximal (the following `\d{2}` cannot start with
    whitespace), as is the trailing `\s*` (it ends the pattern). -/
def matchStampParts (cs : List Char) : Option (List Char × List Char) :=
  match matchDateParts cs with
  | Option.none => Option.none
  | some (dp, r1) =>
    if (r1.takeWhile isPySpace).isEmpty then Option.none
    else
      match expectCount isAsciiDigit 2 (r1.drop (r1.takeWhile isPySpace).length) with
      | Option.none => Option.none
      | some (hh, r3) =>
        match r3 with
        | ':' :: r4 =>
          match expectCount isAsciiDigit 2 r4 with
          | Option.none => Option.none
          | some (mm, r5) =>
            some (dp.chars ++ r1.takeWhile isPySpace ++ hh ++ ':' :: mm,
              r5.dropWhile isPySpace)
        | _ => Option.none

/-- `re.split` by the date-time stamp pattern with the stamp captured:
    returns the alternating parts list
    `[before, stamp, between, stamp, ..., trailing]` exactly as
    `re.split(pattern, text)` does for a pattern with one group. -/
def splitStampGo : Nat → List Char → List Char → List (List Char)
  | 0, acc, cs => [acc.reverse ++ cs]
  | fuel + 1, acc, [] =>
    match matchStampParts [] with
    | some (stamp, rest) => acc.reverse :: stamp :: splitStampGo fuel [] rest
    | Option.none => [acc.reverse]
  | fuel + 1, acc, c :: cs2 =>
    match matchStampParts (c :: cs2) with
    | some (stamp, rest) => acc.reverse :: stamp :: splitStampGo fuel [] rest
    | Option.none => splitStampGo fuel (c :: acc) cs2

def splitStamp (s : String) : List (List Char) :=
  splitStampGo (s.data.length + 1) [] s.data

/-- The `(parts[i], parts[i+1])` pairs visited by
    `for i in range(1, len(parts), 2)`, with the missing final body treated
    as empty exactly as the source does. -/
def pairUp : List (List Char) → List (List Char × List Char)
  | stamp :: body :: rest => (stamp, body) :: pairUp rest
  | [stamp] => [(stamp, [])]
  | [] => []

def stampPairs : List (List Char) → List (List Char × List Char)
  | [] => []
  | _before :: rest => pairUp rest

/-! ## `LabResultParser._clean_test_name` (lab_results_parser.py 95-121)

Step 1 is
`re.match(r"(.*?)(?:\s+(?:ALTS)|$)", header, re.IGNORECASE)` where `ALTS`
is a fixed alternation.  Only `group(1)` is used, so all that matters at a
candidate split point is whether `\s+(ALTS)` or `$` matches there; the lazy
`(.*?)` makes the first (leftmost) such split point win, and it cannot cross
a newline.  `$` without MULTILINE matches at the end of the string or just
before a terminal newline. -/

/-- Does one of the stop alternatives
    `\d{4}:\w{4}|[A-Z]{2}:[A-Z]{2}\d+|\d{2}:\d+|\d{4}|\d{1,2}|Final|
     Report Link|Additional Info|Verified|Reporting|Received|HISTORY|
     DIAGNOSIS|\(` match a prefix here (IGNORECASE, so `[A-Z]` also matches
    lower-case letters)?  Only existence matters for `group(1)`. -/
def stopAltAt (cs : List Char) : Bool :=
  (match expectCount isAsciiDigit 4 cs with
   | some (_, ':' :: r) => (expectCount isWordChar 4 r).isSome
   | _ => false) ||
  (match expectCount isAsciiAlpha 2 cs with
   | some (_, ':' :: r) =>
     match expectCount isAsciiAlpha 2 r with
     | some (_, d :: _) => isAsciiDigit d
     | _ => false
   | _ => false) ||
  (match expectCount isAsciiDigit 2 cs with
   | some (_, ':' :: d :: _) => isAsciiDigit d
   | _ => false) ||
  (expectCount isAsciiDigit 4 cs).isSome ||
  (match cs with
   | d :: _ => isAsciiDigit d
   | [] => false) ||
  ciStarts "Final".data cs ||
  ciStarts "Report Link".data cs ||
  ciStarts "Additional Info".data cs ||
  ciStarts "Verified".data cs ||
  ciStarts "Reporting".data cs ||
  ciStarts "Received".data cs ||
  ciStarts "HISTORY".data cs ||
  ciStarts "DIAGNOSIS".data cs ||
  cs.head? = some '('

/-- Does `\s+(ALTS)` match a prefix of `cs`?  The `\s+` run is maximal: no
    alternative can begin with a whitespace character, so shorter runs can
    never rescue a failed attempt. -/
def stopAfterWs (cs : List Char) : Bool :=
  let ws := cs.takeWhile isPySpace
  ¬ ws.isEmpty && stopAltAt (cs.drop ws.length)

/-- `$` (no MULTILINE): end of string or just before a final newline. -/
def endAnchor (cs : List Char) : Bool := cs.isEmpty || cs = ['\n']

/-- `group(1)` of the step-1 match: scan split points left to right; the
    lazy group cannot consume a newline. -/
def cleanNameGo : Nat → List Char → List Char → Option (List Char)
  | 0, _, _ => Option.none
  | fuel + 1, acc, cs =>
    if stopAfterWs cs || endAnchor cs then some acc.reverse
    else
      match cs with
      | [] => Option.none
      | '\n' :: _ => Option.none
      | c :: cs2 => cleanNameGo fuel (c :: acc) cs2

def cleanNameMatch (s : String) : Option String :=
  (cleanNameGo (s.data.length + 1) [] s.data).map .mk

/-- `re.sub(r"\(this test is to be.*\)", "", ...)` — case sensitive, the
    greedy `.*` handled by the matcher. -/
def parenNoiseRE : RE :=
  .cat (.lits "(this test is to be".data) (.cat dotStarG (.lits ")".data))

/-- Step-2 descriptor-word removal (IGNORECASE), in the source's
    alternation order. -/
def descriptorRE : RE :=
  .alt2 (.lit "Screening Test".data) (.alt2 (.lit "Profile".data)
    (.alt2 (.lit "serum".data) (.alt2 (.lit "POCT".data)
      (.alt2 (.lit "Antibody".data) (.alt2 (.lit "Report".data)
        (.alt2 (.lit "Link".data) (.alt2 (.lit "Additional Info".data)
          (.alt2 (.lit "Verified".data) (.alt2 (.lit "SGCR".data)
            (.lit "Erect".data))))))))))

/-- `re.sub(r"\s+", " ", ...)`. -/
def wsCollapseRE : RE := .cls isPySpace 1 Option.none false

/-- `LabResultParser._clean_test_name`. -/
def cleanTestName (header : String) : String :=
  let base :=
    match cleanNameMatch header with
    | some g => if g.isEmpty then header else pyStrip g
    | Option.none => header
  let s1 := pyStrip (reSub parenNoiseRE "" base)
  let s2 := pyStrip (reSub descriptorRE "" s1)
  let s3 := pyStrip (reSub wsCollapseRE " " s2)
  if containsSub "Anti Double-stranded DNA".data s3.data then
    "Anti Double-stranded DNA Antibody"
  else s3

/-! ## `LabResultParser._parse_all_tests` (lab_results_parser.py 123-190) -/

/-- One raw lab test block (`{"date": ..., "test_name": ..., "raw_details": ...}`). -/
structure LabTest where
  date : String
  test_name : String
  raw_details : String

/-- `get_comparison_key`: `date + "-" + re.sub(r'[,\s\.]', '', name).lower()`.
    The single-character class substitution with an empty replacement is a
    character filter. -/
def cmpKey (date name : String) : String :=
  date ++ "-" ++
    .mk ((name.data.filter fun c => ¬ (c = ',' || isPySpace c || c = '.')).map asciiLower)

def keyOf (t : LabTest) : String := cmpKey t.date t.test_name

/-- Merge step: `current['raw_details'] += "\n\n\n" + next['raw_details']`. -/
def merge1 (a b : LabTest) : LabTest :=
  { a with raw_details := a.raw_details ++ "\n\n\n" ++ b.raw_details }

/-- Python `str.split('\n', 1)[0]`. -/
def firstLineOf (s : String) : String := .mk (s.data.takeWhile fun c => ¬ c = '\n')

/-- The "INITIAL SPLIT AND CLEANING" loop of `_parse_all_tests`. -/
def initialTests (text : String) : List LabTest :=
  (stampPairs (splitStamp text)).filterMap fun pr =>
    let stamp := pyStrip (String.mk pr.1)
    let body := pyStrip (String.mk pr.2)
    let date :=
      match matchDateParts stamp.data with
      | some (dp, _) => String.mk dp.chars
      | Option.none => "Unknown Date"
    let name := cleanTestName (pyStrip (firstLineOf body))
    if ¬ name.isEmpty && ¬ body.isEmpty then some ⟨date, name, body⟩
    else Option.none

/-- The "AGGREGATE CONSECUTIVE BLOCKS" loop. -/
def aggLoop : LabTest → List LabTest → List LabTest
  | cur, [] => [cur]
  | cur, t :: ts =>
    if keyOf cur = keyOf t then aggLoop (merge1 cur t) ts
    else cur :: aggLoop t ts

def aggregateTests : List LabTest → List LabTest
  | [] => []
  | t :: ts => aggLoop t ts

/-- `LabResultParser._parse_all_tests`. -/
def parseAllTests (text : String) : List LabTest :=
  aggregateTests (initialTests text)

/-! Spec-side rendering of the coalescing invariant (used only to compare
    with `aggregateTests`): group the records into maximal adjacent runs of
    equal comparison key, then merge each run front to back with the
    triple-newline separator, preserving first-seen order. -/

/-- Maximal adjacent equal-key runs, in order (modelled from the spec's
    coalescing invariant). -/
def coalesceGo (c : LabTest) (run : List LabTest) :
    List LabTest → List (List LabTest)
  | [] => [c :: run.reverse]
  | t :: ts =>
    if keyOf t = keyOf c then coalesceGo c (t :: run) ts
    else (c :: run.reverse) :: coalesceGo t [] ts

def coalesceRuns : List LabTest → List (List LabTest)
  | [] => []
  | t :: ts => coalesceGo t [] ts

/-- Merge one run, joining bodies front to back with `"\n\n\n"`. -/
def mergeInto (c : LabTest) : List LabTest → LabTest
  | [] => c
  | t :: ts => mergeInto (merge1 c t) ts

def mergeRun : List LabTest → LabTest
  | [] => ⟨"", "", ""⟩
  | c :: ts => mergeInto c ts

/-! ## `LabResultParser.parse` (lab_results_parser.py 192-234), with the
    PDF-extracted text as a parameter -/

/-- The body clean-up in `parse`:
    `(Final\s*Updated|Final|Updated|I\s*1|SGCR\d+|(?:\d{2}:\w{2}\d{4}))\s*`
    (IGNORECASE), alternatives in source order. -/
def labCleanupRE : RE :=
  .cat
    (.alt2 (.cat (.lit "Final".data) (.cat wsStarG (.lit "Updated".data)))
      (.alt2 (.lit "Final".data) (.alt2 (.lit "Updated".data)
        (.alt2 (.cat (.lit "I".data) (.cat wsStarG (.lit "1".data)))
          (.alt2 (.cat (.lit "SGCR".data) (.cls isAsciiDigit 1 Option.none false))
            (.cat (.cls isAsciiDigit 2 (some 2) false)
              (.cat (.lits ":".data)
                (.cat (.cls isWordChar 2 (some 2) false)
                  (.cls isAsciiDigit 4 (some 4) false)))))))))
    wsStarG

/-- `re.sub(r"\s*\n\s*", "\n", ...)`. -/
def lineCollapseRE : RE := .cat wsStarG (.cat (.lits "\n".data) wsStarG)

/-- `re.sub(r" {2,}", " ", ...)`. -/
def spaceCollapseRE : RE := .cls (fun c => c = ' ') 2 Option.none false

/-- The per-record detail normalization inside `parse` (lines 221-224). -/
def labDetailsClean (s : String) : String :=
  let s1 := reSub labCleanupRE " " s
  let s2 := reSub lineCollapseRE "\n" s1
  pyStrip (reSub spaceCollapseRE " " s2)

/-- Append one value at a date key of an insertion-ordered mapping from
    date strings to lists (`defaultdict(list)` image). -/
def appendAt (d : String) (v : α) :
    List (String × List α) → List (String × List α)
  | [] => [(d, [v])]
  | (k, vs) :: rest =>
    if k = d then (k, vs ++ [v]) :: rest else (k, vs) :: appendAt d v rest

/-- `LabResultParser.parse`, from the already-extracted cleaned text: the
    timeline mapping each date to its `{"test_name": ..., "text": ...}`
    entries. -/
def labParse (text : String) : List (String × List (String × String)) :=
  if text.isEmpty then []
  else
    (parseAllTests text).foldl
      (fun tl t => appendAt t.date (t.test_name, labDetailsClean t.raw_details) tl) []

/-! ## Python values

A small value universe for the JSON-like dictionaries the pipeline
constructs (`None`, strings, lists, insertion-ordered dicts). -/

inductive PyVal where
  | pnone : PyVal
  | str : String → PyVal
  | lst : List PyVal → PyVal
  | dict : List (String × PyVal) → PyVal

def dictKVs : PyVal → List (String × PyVal)
  | .dict kvs => kvs
  | _ => []

def isDictV : PyVal → Bool
  | .dict _ => true
  | _ => false

def isListV : PyVal → Bool
  | .lst _ => true
  | _ => false

def listItems : PyVal → List PyVal
  | .lst xs => xs
  | _ => []

def lookupKV (k : String) : List (String × PyVal) → Option PyVal
  | [] => Option.none
  | pr :: rest => if pr.1 = k then some pr.2 else lookupKV k rest

def hasKeyB (k : String) (kvs : List (String × PyVal)) : Bool :=
  kvs.any fun pr => pr.1 == k

/-- Python `{**a, **b}` for dicts: `a`'s keys in order with values updated
    by `b` where present, then `b`'s new keys appended in order. -/
def pyDictMerge (a b : List (String × PyVal)) : List (String × PyVal) :=
  (a.map fun pr =>
    match lookupKV pr.1 b with
    | some v => (pr.1, v)
    | Option.none => pr) ++
  b.filter fun pr => ! hasKeyB pr.1 a

/-- `subsections[k] = v`: update in place if the key exists, else append. -/
def dictSet (k : String) (v : α) : List (String × α) → List (String × α)
  | [] => [(k, v)]
  | pr :: rest => if pr.1 = k then (k, v) :: rest else pr :: dictSet k v rest

/-! ## `MedicalRecordsParser` — DMO header regex (shared by
    medical_records_parser.py 44-54 and document_parser.py 16-25)

`.{0,10}?DMO\s*(Consult|Correspondence|Pre[- ]?clerk\s*Consult|
 Inpatient\s*(?:Admission\s*Note|Daily\s*Ward\s*Round(?:\s*V\d+)?)|
 Correspondence\s*Note).{0,50}?\[Charted\s*Location:`
with IGNORECASE and DOTALL, applied by `re.search` after
`re.sub(r"^[^\w]*", "", line)`. -/

/-- `.` under DOTALL. -/
def dotAll (lo : Nat) (hi : Option Nat) (lazy : Bool) : RE :=
  .cls (fun _ => true) lo hi lazy

def dmoPre : RE :=
  .cat (dotAll 0 (some 10) true) (.cat (.lit "DMO".data) wsStarG)

def dmoCap : RE :=
  .alt2 (.lit "Consult".data)
    (.alt2 (.lit "Correspondence".data)
      (.alt2
        (.cat (.lit "Pre".data)
          (.cat (.opt (.cls (fun c => c = '-' || c = ' ') 1 (some 1) false))
            (.cat (.lit "clerk".data) (.cat wsStarG (.lit "Consult".data)))))
        (.alt2
          (.cat (.lit "Inpatient".data)
            (.cat wsStarG
              (.alt2 (.cat (.lit "Admission".data) (.cat wsStarG (.lit "Note".data)))
                (.cat (.lit "Daily".data)
                  (.cat wsStarG
                    (.cat (.lit "Ward".data)
                      (.cat wsStarG
                        (.cat (.lit "Round".data)
                          (.opt (.cat wsStarG
                            (.cat (.lit "V".data)
                              (.cls isAsciiDigit 1 Option.none false))))))))))))
          (.cat (.lit "Correspondence".data)
            (.cat wsStarG (.lit "Note".data))))))

def dmoPost : RE :=
  .cat (dotAll 0 (some 50) true)
    (.cat (.lit "[Charted".data) (.cat wsStarG (.lit "Location:".data)))

/-- `match_dmo_section_header`: strip leading non-word characters
    (`re.sub(r"^[^\w]*", "", line)`), then search; returns `group(1)`,
    the section type. -/
def matchDmoSectionHeader (line : String) : Option String :=
  let cs := line.data.dropWhile fun c => ! isWordChar c
  (reSearchCapGo dmoPre dmoCap dmoPost (cs.length + 1) Option.none cs).map .mk

def isDmoSectionHeader (line : String) : Bool :=
  (matchDmoSectionHeader line).isSome

/-- `is_last_updated_line`:
    `line.strip().upper().startswith("LAST UPDATED:")`. -/
def isLastUpdatedLine (line : String) : Bool :=
  exStarts "LAST UPDATED:".data (asciiUpperStr (pyStrip line)).data

/-- `is_junk_line` (document_parser.py 142-153).  The float comparisons
    `ratio < 0.25` and `ratio < 0.5` are expressed exactly over naturals
    (`alnum/len < 1/4  ↔  4*alnum < len`; both bounds are dyadic so the
    float division is exact at the boundary). -/
def isJunkLine (line : String) : Bool :=
  let text := (pyStrip line).data
  if text.length < 10 then false
  else
    let alnum := (text.filter isAlnum).length
    if 4 * alnum < text.length ||
       (decide (30 < text.length) && ! text.contains ' ' &&
        2 * alnum < text.length) then true
    else
      match text with
      | [] => false
      | c :: rest =>
        ! isWordChar c && ! isPySpace c && decide (8 ≤ rest.length) &&
          rest.all fun d => d == c

/-! ## Clinical-note segmenter
    (`MedicalRecordsParser.extract_dmo_sections`, document_parser.py
    158-197) -/

structure SegSt where
  sections : List String
  current : List String
  inside : Bool

/-- Flush the buffered lines: `"\n".join(current).strip()`. -/
def flushBuf (cur : List String) : String :=
  pyStrip (String.intercalate "\n" cur)

/-- The per-line transition of `extract_dmo_sections`: junk lines are
    skipped; a header line flushes any in-progress section and starts a new
    one; inside a section every line is buffered and a "LAST UPDATED:" line
    additionally emits the buffer and leaves the section. -/
def segStep (st : SegSt) (line : String) : SegSt :=
  let ls := pyStrip line
  if isJunkLine ls then st
  else if isDmoSectionHeader line then
    { sections := st.sections ++ (if st.current.isEmpty then [] else [flushBuf st.current]),
      current := [ls], inside := true }
  else if st.inside then
    let cur := st.current ++ [ls]
    if isLastUpdatedLine ls then
      { sections := st.sections ++ [flushBuf cur], current := [], inside := false }
    else { st with current := cur }
  else st

/-- The machine state after consuming all lines of the text. -/
def segFinal (text : String) : SegSt :=
  (pySplitlines text).foldl segStep ⟨[], [], false⟩

/-- `extract_dmo_sections` (document_parser.py): run the machine over the
    lines and flush a trailing partial section. -/
def extractDmoSections (text : String) : List String :=
  (segFinal text).sections ++
    (if (segFinal text).current.isEmpty then [] else [flushBuf (segFinal text).current])

/-! ## Metadata patterns (medical_records_parser.py 56-58, 212-222) -/

/-- `Authored:\s*(\d{1,2}-[A-Za-z]{3}-\d{4})` (IGNORECASE) as a search
    returning the captured date.  After the literal, `\s*` is maximal (the
    capture must start with a digit); when the date fails the scan resumes
    at the next position. -/
def authoredAt (cs : List Char) : Option (List Char) :=
  if ciStarts "Authored:".data cs then
    match matchDateParts ((cs.drop "Authored:".data.length).dropWhile isPySpace) with
    | some (dp, _) => some dp.chars
    | Option.none => Option.none
  else Option.none

def authoredSearchGo : Nat → List Char → Option (List Char)
  | 0, _ => Option.none
  | _ + 1, [] => authoredAt []
  | fuel + 1, c :: cs2 =>
    match authoredAt (c :: cs2) with
    | some d => some d
    | Option.none => authoredSearchGo fuel cs2

def authoredSearch (s : String) : Option String :=
  (authoredSearchGo (s.data.length + 1) s.data).map .mk

/-- `Last Updated:.*?by\s+([A-Za-z\s\-]+)\s*\(Doctor\)` (IGNORECASE),
    returning `group(1)`. -/
def doctorPre : RE :=
  .cat (.lit "Last Updated:".data) (.cat dotStarL (.cat (.lit "by".data) wsPlusG))

def doctorCap : RE :=
  .cls (fun c => isAsciiAlpha c || isPySpace c || c = '-') 1 Option.none false

def doctorPost : RE := .cat wsStarG (.lit "(Doctor)".data)

def doctorSearch (s : String) : Option String :=
  reSearchCap doctorPre doctorCap doctorPost s

/-- `parse_dmo_metadata` (medical_records_parser.py 212-222): authored
    date, doctor and section type, each degrading to "UNKNOWN" when its
    pattern does not match.  `section.splitlines()[0]` is modelled with an
    empty-string default; on the empty section (never produced by
    `extract_dmo_sections`) CPython would raise `IndexError` instead. -/
def parseDmoMetadata (sec : String) : String × String × String :=
  let authored :=
    match authoredSearch sec with
    | some d => d
    | Option.none => "UNKNOWN"
  let doctor :=
    match doctorSearch sec with
    | some nm => pyStrip nm
    | Option.none => "UNKNOWN"
  let stype :=
    match matchDmoSectionHeader ((pySplitlines sec).headD "") with
    | some t => t
    | Option.none => "UNKNOWN"
  (authored, doctor, stype)

/-! ## `remove_admin_noise` (medical_records_parser.py 243-250)

Five in-order `re.sub`s with `(?im)`-style flags (MULTILINE `^`/`$`,
IGNORECASE), then `\n{3,} → "\n\n"` and `strip()`. -/

def ranP1 : RE :=
  .cat .bol (.cat wsStarG (.cat (.lit "Electronic Signatures:".data)
    (.cat dotStarG .eol)))

def ranP2 : RE :=
  .cat .bol (.cat wsStarG (.cat (.lit "Authored:".data) (.cat dotStarG .eol)))

def ranP3 : RE :=
  .cat .bol (.cat wsStarG
    (.cat (.cls (fun c => isAsciiAlpha c || isPySpace c || c = '.' || c = '-')
            1 Option.none false)
      (.cat (.lit "(Doctor)".data)
        (.cat wsStarG (.cat (.lit "(Signed".data) (.cat dotStarG .eol))))))

def ranP4 : RE :=
  .cat .bol (.cat wsStarG (.cat (.lit "Last Updated:".data) (.cat dotStarG .eol)))

def ranP5 : RE := .cat .bol (.cat wsStarG (.cat (.lits "|".data) wsStarG))

def blank3RE : RE := .cls (fun c => c = '\n') 3 Option.none false

def removeAdminNoise (s : String) : String :=
  let t1 := reSub ranP1 "" s
  let t2 := reSub ranP2 "" t1
  let t3 := reSub ranP3 "" t2
  let t4 := reSub ranP4 "" t3
  let t5 := reSub ranP5 "" t4
  pyStrip (reSub blank3RE "\n\n" t5)

/-! ## `normalize_formatting` (medical_records_parser.py 227-241)

The date substitution replaces each `(\d{1,2})-([A-Za-z]{3})-(\d{4})` match
by `f"{year}-{month_map.get(mon, '01')}-{int(day):02d}"`; the month and
abbreviation tables come from the YAML config, so they are parameters
here. -/

def parseNatDigits (ds : List Char) : Nat :=
  ds.foldl (fun acc c => acc * 10 + (c.toNat - '0'.toNat)) 0

/-- Python `f"{n:02d}"` for the (at most two-digit) day value. -/
def twoDigit (n : Nat) : String :=
  if n < 10 then "0" ++ toString n else toString n

def monthAbbrToNum (monthMap : List (String × String)) (abbr : String) : String :=
  match monthMap.find? fun pr => pr.1 == abbr with
  | some pr => pr.2
  | Option.none => "01"

def dateRepl (monthMap : List (String × String)) (dp : DateParts) : String :=
  String.mk dp.year ++ "-" ++ monthAbbrToNum monthMap (String.mk dp.mon) ++ "-" ++
    twoDigit (parseNatDigits dp.day)

/-- The date-canonicalization `re.sub` with its computed replacement. -/
def dateSubGo (monthMap : List (String × String)) :
    Nat → List Char → List Char
  | 0, cs => cs
  | fuel + 1, cs =>
    match matchDateParts cs with
    | some (dp, rest) => (dateRepl monthMap dp).data ++ dateSubGo monthMap fuel rest
    | Option.none =>
      match cs with
      | [] => []
      | c :: cs2 => c :: dateSubGo monthMap fuel cs2

/-- `\b` between an optional left and right character: exactly one side is
    a word character. -/
def wordBoundary (l r : Option Char) : Bool :=
  (match l with
   | some c => isWordChar c
   | Option.none => false) !=
  (match r with
   | some c => isWordChar c
   | Option.none => false)

/-- One `re.sub(rf"\b{re.escape(abbr)}\b", full, text)` pass (case
    sensitive; `\b` is evaluated against the original characters, and the
    scan continues after the matched region). -/
def abbrSubGo (pat full : List Char) : Nat → Option Char → List Char → List Char
  | 0, _, cs => cs
  | fuel + 1, prev, cs =>
    if ! pat.isEmpty && exStarts pat cs && wordBoundary prev cs.head? &&
       wordBoundary ((cs.take pat.length).getLast?) ((cs.drop pat.length).head?) then
      full ++ abbrSubGo pat full fuel ((cs.take pat.length).getLast?) (cs.drop pat.length)
    else
      match cs with
      | [] => []
      | c :: cs2 => c :: abbrSubGo pat full fuel (some c) cs2

def abbrSub (ab full : String) (s : String) : String :=
  .mk (abbrSubGo ab.data full.data (s.data.length + 1) Option.none s.data)

/-- `normalize_formatting`: date canonicalization, whole-word abbreviation
    expansion (in map order), newline→space, non-ASCII removal (the
    `[^\x00-\x7F]+` substitution with an empty replacement is a character
    filter). -/
def normalizeFormatting (monthMap abbrMap : List (String × String))
    (s : String) : String :=
  let t1 := String.mk (dateSubGo monthMap (s.data.length + 1) s.data)
  let t2 := abbrMap.foldl (fun acc pr => abbrSub pr.1 pr.2 acc) t1
  let t3 := String.mk (t2.data.map fun c => if c = '\n' then ' ' else c)
  String.mk (t3.data.filter fun c => c.toNat ≤ 127)

/-- The per-record normalization pipeline of `build_timeline`
    (medical_records_parser.py 286-287): admin-noise removal then
    formatting normalization. -/
def medNormalize (monthMap abbrMap : List (String × String)) (s : String) : String :=
  normalizeFormatting monthMap abbrMap (removeAdminNoise s)

/-! ## `split_into_subsections` (medical_records_parser.py 181-207)

`re.split("(" + "|".join(escape(h) + ":?" for h in headers) + ")", text,
flags=re.IGNORECASE)`, then the bucketing loop.  The subsection header list
comes from the YAML config.  Empty header strings are skipped (a real
config has none; with one, CPython's zero-width split behaves
differently). -/

def headerAltAt (headers : List String) (cs : List Char) : Option (List Char) :=
  headers.findSome? fun h =>
    if ! h.data.isEmpty && ciStarts h.data cs then
      let rest := cs.drop h.data.length
      some (cs.take h.data.length ++ (if rest.head? = some ':' then [':'] else []))
    else Option.none

def splitHeadersGo (headers : List String) :
    Nat → List Char → List Char → List String
  | 0, acc, cs => [.mk (acc.reverse ++ cs)]
  | fuel + 1, acc, cs =>
    match headerAltAt headers cs with
    | some sep =>
      .mk acc.reverse :: .mk sep :: splitHeadersGo headers fuel [] (cs.drop sep.length)
    | Option.none =>
      match cs with
      | [] => [.mk acc.reverse]
      | c :: cs2 => splitHeadersGo headers fuel (c :: acc) cs2

def splitByHeaders (headers : List String) (s : String) : List String :=
  splitHeadersGo headers (s.data.length + 1) [] s.data

/-- `{h.upper(): h for h in headers}` (later duplicates win). -/
def normalizedHeaders (headers : List String) : List (String × String) :=
  headers.foldl (fun m h => dictSet (asciiUpperStr h) h m) []

/-- Python `str.rstrip(":")`. -/
def rstripColon (s : String) : String :=
  .mk (s.data.reverse.dropWhile fun c => c = ':').reverse

/-- The part-bucketing loop of `split_into_subsections`. -/
def subsLoop (normMap : List (String × String)) :
    List String → List String → String → List (String × String) →
    List (String × String)
  | [], buffer, currentHeader, subsections =>
    if buffer.isEmpty then subsections
    else
      let content := pyStrip (String.intercalate " " buffer)
      if content.isEmpty then subsections
      else dictSet currentHeader content subsections
  | part :: parts, buffer, currentHeader, subsections =>
    let candidate := rstripColon (pyStrip part)
    match normMap.find? fun pr => pr.1 == asciiUpperStr candidate with
    | some pr =>
      if buffer.isEmpty then subsLoop normMap parts [] pr.2 subsections
      else
        let content := pyStrip (String.intercalate " " buffer)
        if content.isEmpty then subsLoop normMap parts [] pr.2 subsections
        else subsLoop normMap parts [] pr.2 (dictSet currentHeader content subsections)
    | Option.none => subsLoop normMap parts (buffer ++ [part]) currentHeader subsections

def splitIntoSubsections (headers : List String) (text : String) :
    List (String × String) :=
  let parts := splitByHeaders headers text
  let subsections := subsLoop (normalizedHeaders headers) parts [] "General" []
  subsections.filter fun pr => ! (pyStrip pr.2).isEmpty

/-! ## `extract_allergies` (medical_records_parser.py 255-261) -/

/-- `Allergies[: ]+(.*)` (IGNORECASE) as a search returning `group(1)`:
    after the literal, the `[: ]+` run is maximal and `(.*)` takes the rest
    of the line (both greedy; the first attempt always succeeds). -/
def allergiesAt (cs : List Char) : Option (List Char) :=
  if ciStarts "Allergies".data cs then
    let r := cs.drop "Allergies".data.length
    let run := r.takeWhile fun c => c = ':' || c = ' '
    if run.isEmpty then Option.none
    else some ((r.drop run.length).takeWhile fun c => ¬ c = '\n')
  else Option.none

def allergiesSearchGo : Nat → List Char → Option (List Char)
  | 0, _ => Option.none
  | fuel + 1, cs =>
    match allergiesAt cs with
    | some g => some g
    | Option.none =>
      match cs with
      | [] => Option.none
      | _ :: cs2 => allergiesSearchGo fuel cs2

def extractAllergies (s : String) : Option String :=
  if containsSub "No Known Allergies".data s.data ||
     containsSub "nil known".data (asciiLowerStr s).data then some "NKA"
  else
    match allergiesSearchGo (s.data.length + 1) s.data with
    | some g => some (pyStrip (String.mk g))
    | Option.none => Option.none

/-! ## `enrich_dmo_entry` and `build_timeline`
    (medical_records_parser.py 263-293) -/

/-- `enrich_dmo_entry` applied to
    `{"doctor": ..., "section_type": ..., "text": cleaned}`:
    `{**entry, "subsections": [...], "allergies": ..., "text": subsections}`. -/
def enrichEntry (headers : List String) (doctor stype text : String) : PyVal :=
  let subs := splitIntoSubsections headers text
  .dict (pyDictMerge
    [("doctor", .str doctor), ("section_type", .str stype), ("text", .str text)]
    [("subsections", .lst (subs.map fun pr => .str pr.1)),
     ("allergies",
       match extractAllergies text with
       | some a => .str a
       | Option.none => .pnone),
     ("text", .dict (subs.map fun pr => (pr.1, .str pr.2)))])

/-- One `build_timeline` loop iteration: metadata extraction, admin-noise
    removal, formatting normalization, enrichment; keyed by the authored
    date. -/
def buildTimelineEntry (headers : List String)
    (monthMap abbrMap : List (String × String)) (sec : String) : String × PyVal :=
  let meta := parseDmoMetadata sec
  let cleaned := medNormalize monthMap abbrMap sec
  (meta.1, enrichEntry headers meta.2.1 meta.2.2 cleaned)

/-- `MedicalRecordsParser.build_timeline` from the extracted DMO sections
    (the PDF extraction is external I/O): every section is enriched and
    appended at its date bucket. -/
def buildTimelineFromSections (headers : List String)
    (monthMap abbrMap : List (String × String)) (secs : List String) :
    List (String × List PyVal) :=
  secs.foldl
    (fun tl sec =>
      let pr := buildTimelineEntry headers monthMap abbrMap sec
      appendAt pr.1 pr.2 tl) []

/-! ## `file_upload_processor.py` — per-file worker and timeline merger -/

/-- One element of `structured_data_results`. -/
structure DocResult where
  original_filename : String
  file_type : String
  structured_data : List (String × PyVal)

/-- `not structured_data or "error" in structured_data`. -/
def skipResult (r : DocResult) : Bool :=
  r.structured_data.isEmpty || hasKeyB "error" r.structured_data

/-- The Python call `LabResultParser()` in `_process_single_file`
    (file_upload_processor.py 114).  `LabResultParser.__init__`
    (lab_results_parser.py 35) declares a required positional parameter
    `pdf_path` with no default, so the zero-argument call raises
    `TypeError` before any parsing happens (and the class also defines no
    `build_timeline` method, so even a constructed instance could not
    proceed). -/
def labResultParserZeroArgCall : Except String Unit :=
  .error "__init__ missing 1 required positional argument: pdf_path"

/-- `_process_single_file` (file_upload_processor.py 99-132).  The
    Medical-Records branch runs `MedicalRecordsParser().build_timeline`
    over the PDF — external I/O — so its outcome (a structured dict, or an
    exception caught by the handler) is a parameter; the Lab-Results branch
    always raises via `labResultParserZeroArgCall`, and the handler turns
    any exception into the `{"error": "Parsing failed: ..."}` sentinel. -/
def processSingleFile (fn ft : String)
    (medOutcome : Except String (List (String × PyVal))) : DocResult :=
  if ft = "Lab Results" then
    match labResultParserZeroArgCall with
    | .error e => ⟨fn, ft, [("error", .str ("Parsing failed: " ++ e))]⟩
    | .ok _ =>
      ⟨fn, ft, [("error", .str "Parsing failed: no attribute build_timeline")]⟩
  else if ft = "Medical Records" then
    match medOutcome with
    | .ok sd => ⟨fn, ft, sd⟩
    | .error e => ⟨fn, ft, [("error", .str ("Parsing failed: " ++ e))]⟩
  else ⟨fn, ft, [("error", .str "Unknown file type, skipped parsing.")]⟩

/-- State of `create_combined_patient_timeline`'s loops: the date-keyed
    `defaultdict(list)` plus the loop-carried `event` variable, which in
    the Python source survives across iterations (it is only (re)bound in
    the two recognized `file_type` branches). -/
structure MergeSt where
  timeline : List (String × List PyVal)
  lastEvent : Option PyVal

/-- Process one `raw_record` of one date bucket
    (file_upload_processor.py 274-293).  An unrecognized `file_type`
    reaches `unified_timeline[date].append(event)` with the stale `event`
    (or raises `NameError` when no event was ever bound); a Medical-Records
    record that is not a dict makes `{**...}` raise `TypeError`. -/
def recordStep (ft fn d : String) (raw : PyVal) (st : MergeSt) :
    Except String MergeSt :=
  if ft = "Lab Results" then
    let ev : PyVal := .dict
      [("record_type", .str ft), ("source_file", .str fn), ("tests", .lst [raw])]
    .ok ⟨appendAt d ev st.timeline, some ev⟩
  else if ft = "Medical Records" then
    match raw with
    | .dict kvs =>
      let ev : PyVal := .dict
        (pyDictMerge [("record_type", .str ft), ("source_file", .str fn)] kvs)
      .ok ⟨appendAt d ev st.timeline, some ev⟩
    | _ => .error "TypeError: argument after double-star must be a mapping"
  else
    match st.lastEvent with
    | some ev => .ok ⟨appendAt d ev st.timeline, some ev⟩
    | Option.none => .error "NameError: name event is not defined"

def recordsFold (ft fn d : String) : MergeSt → List PyVal → Except String MergeSt
  | st, [] => .ok st
  | st, raw :: rest =>
    match recordStep ft fn d raw st with
    | .error e => .error e
    | .ok st2 => recordsFold ft fn d st2 rest

/-- The date-key loop: a value that is not a list is skipped with a
    warning. -/
def entriesFold (ft fn : String) :
    MergeSt → List (String × PyVal) → Except String MergeSt
  | st, [] => .ok st
  | st, (d, v) :: rest =>
    if isListV v then
      match recordsFold ft fn d st (listItems v) with
      | .error e => .error e
      | .ok st2 => entriesFold ft fn st2 rest
    else entriesFold ft fn st rest

/-- Process one per-document result: error-marked or empty structured data
    is skipped entirely. -/
def docProcess (st : MergeSt) (r : DocResult) : Except String MergeSt :=
  if skipResult r then .ok st
  else entriesFold r.file_type r.original_filename st r.structured_data

/-- `create_combined_patient_timeline`'s folding loop over
    `structured_data_results`. -/
def mergeResults : MergeSt → List DocResult → Except String MergeSt
  | st, [] => .ok st
  | st, r :: rs =>
    match docProcess st r with
    | .error e => .error e
    | .ok st2 => mergeResults st2 rs

/-- The empty starting state (`defaultdict(list)`, `event` unbound). -/
def mergeInit : MergeSt := ⟨[], Option.none⟩

/-- First list bound to a date key (empty when the key is absent). -/
def bucketAt (d : String) : List (String × List PyVal) → List PyVal
  | [] => []
  | (k, vs) :: rest => if k = d then vs else bucketAt d rest

/-- The event object built for one raw record of a document with a
    recognized type (total companion of `recordStep`, used to state the
    merger's ordering property). -/
def eventOf (ft fn : String) (raw : PyVal) : PyVal :=
  if ft = "Lab Results" then
    .dict [("record_type", .str ft), ("source_file", .str fn), ("tests", .lst [raw])]
  else
    .dict (pyDictMerge [("record_type", .str ft), ("source_file", .str fn)]
      (dictKVs raw))

/-- The events a single document contributes to date bucket `d`, in
    processing order. -/
def docEventsAt (d : String) (r : DocResult) : List PyVal :=
  if skipResult r then []
  else
    r.structured_data.flatMap fun pr =>
      if pr.1 == d && isListV pr.2 then
        (listItems pr.2).map (eventOf r.file_type r.original_filename)
      else []

/-- A per-document result on which the merger loop cannot raise: it is
    skipped, or its type is "Lab Results", or it is "Medical Records" and
    every record under a list-valued date key is a dict. -/
def validResult (r : DocResult) : Bool :=
  skipResult r || r.file_type == "Lab Results" ||
  (r.file_type == "Medical Records" &&
    r.structured_data.all fun pr => (listItems pr.2).all isDictV)

/-! # Theorems -/

/-! ## C2 — the lab aggregation step coalesces exactly the maximal
    adjacent equal-key runs -/

theorem keyOf_merge1 (a b : LabTest) : keyOf (merge1 a b) = keyOf a := rfl

theorem keyOf_mergeInto (ts : List LabTest) :
    ∀ c, keyOf (mergeInto c ts) = keyOf c := by
  induction ts with
  | nil => intro c; rfl
  | cons t ts ih =>
    intro c
    show keyOf (mergeInto (merge1 c t) ts) = keyOf c
    rw [ih, keyOf_merge1]

theorem mergeInto_append (run : List LabTest) :
    ∀ c t, mergeInto c (run ++ [t]) = merge1 (mergeInto c run) t := by
  induction run with
  | nil => intro c t; rfl
  | cons r rs ih =>
    intro c t
    show mergeInto (merge1 c r) (rs ++ [t]) = merge1 (mergeInto (merge1 c r) rs) t
    exact ih _ _

theorem aggLoop_eq_coalesce (ts : List LabTest) :
    ∀ c run, aggLoop (mergeInto c run) ts = (coalesceGo c run.reverse ts).map mergeRun := by
  induction ts with
  | nil =>
    intro c run
    show [mergeInto c run] = [mergeRun (c :: run.reverse.reverse)]
    rw [List.reverse_reverse]
    rfl
  | cons t ts ih =>
    intro c run
    show (if keyOf (mergeInto c run) = keyOf t then
            aggLoop (merge1 (mergeInto c run) t) ts
          else mergeInto c run :: aggLoop t ts) =
      ((if keyOf t = keyOf c then coalesceGo c (t :: run.reverse) ts
        else (c :: run.reverse.reverse) :: coalesceGo t [] ts).map mergeRun)
    rw [keyOf_mergeInto]
    by_cases h : keyOf c = keyOf t
    · rw [if_pos h, if_pos h.symm, ← mergeInto_append _ c t]
      have := ih c (run ++ [t])
      rw [List.reverse_append] at this
      simpa using this
    · rw [if_neg h, if_neg fun hh => h hh.symm, List.map_cons,
        List.reverse_reverse]
      have hrun : mergeRun (c :: run) = mergeInto c run := rfl
      rw [hrun]
      have := ih t []
      simpa using this

theorem aggregateTests_eq_coalesce (l : List LabTest) :
    aggregateTests l = (coalesceRuns l).map mergeRun := by
  cases l with
  | nil => rfl
  | cons t ts =>
    show aggLoop t ts = (coalesceGo t [] ts).map mergeRun
    have := aggLoop_eq_coalesce ts t []
    simpa using this

/-- C2. In the lab-result segmenter's aggregation step, for every cleaned
    input text the aggregated output is exactly the sequence of maximal
    adjacent runs of raw records with equal comparison key (the record's
    date joined with its cleaned test name lowercased with commas,
    whitespace and periods removed — `keyOf`), each run merged front to
    back by appending the later body to the earlier one with the
    triple-newline separator (`merge1`), preserving first-seen order;
    adjacent records are therefore merged into one record if and only if
    their comparison keys are equal. -/
theorem c2_lab_coalescing (text : String) :
    parseAllTests text = (coalesceRuns (initialTests text)).map mergeRun :=
  aggregateTests_eq_coalesce (initialTests text)

/-! ## C6 — the spec's "Glucose" / "Glucose, Random" pair does NOT
    coalesce under `_clean_test_name`/`get_comparison_key` -/

/-- The cleaned text of a lab report holding two adjacent stamps whose
    body headers are "Glucose" and "Glucose, Random", both on
    20-Jun-2025. -/
def c6Text : String :=
  "20-Jun-2025 08:00\nGlucose\n5.4 mmol/L\n20-Jun-2025 08:05\nGlucose, Random\n5.5 mmol/L"

def c6Rec1 : LabTest := ⟨"20-Jun-2025", "Glucose", "Glucose\n5.4 mmol/L"⟩

def c6Rec2 : LabTest :=
  ⟨"20-Jun-2025", "Glucose, Random", "Glucose, Random\n5.5 mmol/L"⟩

/-- C6 (counterexample). For the claimed pair of adjacent records (date
    "20-Jun-2025", headers "Glucose" and "Glucose, Random") the two
    comparison keys are NOT equal — `_clean_test_name` leaves
    ", Random" in place and the key normalization yields
    "20-jun-2025-glucose" vs "20-jun-2025-glucoserandom" — so the
    aggregation step keeps the two records separate instead of merging
    them. -/
theorem c6_counterexample :
    initialTests c6Text = [c6Rec1, c6Rec2] ∧
    ¬ keyOf c6Rec1 = keyOf c6Rec2 ∧
    parseAllTests c6Text = [c6Rec1, c6Rec2] :=
  ⟨rfl, by decide, rfl⟩

/-- A header pair that genuinely normalizes to the same key: "Glucose" and
    "Glucose." (the period is stripped by the key normalization). -/
def c6AmendedText : String :=
  "20-Jun-2025 08:00\nGlucose\n5.4 mmol/L\n20-Jun-2025 08:05\nGlucose.\n5.5 mmol/L"

def c6AmendedRec2 : LabTest := ⟨"20-Jun-2025", "Glucose.", "Glucose.\n5.5 mmol/L"⟩

/-- C6 (amended). For a pair of adjacent lab raw records sharing date
    "20-Jun-2025" whose headers do normalize to the same comparison key —
    "Glucose" and "Glucose." — the aggregation merges them into a single
    record whose body contains both original bodies joined by the
    triple-newline merge separator, in original order; the spec's
    "Glucose, Random" header instead keeps its own key (no cleaning rule
    removes ", Random") and does not merge with "Glucose". -/
theorem c6_amended :
    initialTests c6AmendedText = [c6Rec1, c6AmendedRec2] ∧
    keyOf c6Rec1 = keyOf c6AmendedRec2 ∧
    parseAllTests c6AmendedText =
      [⟨"20-Jun-2025", "Glucose",
        "Glucose\n5.4 mmol/L" ++ "\n\n\n" ++ "Glucose.\n5.5 mmol/L"⟩] :=
  ⟨rfl, rfl, rfl⟩

/-! ## C3 — skip-on-error / skip-non-list in the merger -/

theorem docProcess_skip (st : MergeSt) (r : DocResult)
    (h : skipResult r = true) : docProcess st r = .ok st := by
  simp [docProcess, h]

theorem mergeResults_cons (st : MergeSt) (r : DocResult) (rs : List DocResult) :
    mergeResults st (r :: rs) =
      match docProcess st r with
      | Except.error e => Except.error e
      | Except.ok st2 => mergeResults st2 rs := rfl

theorem entriesFold_cons (ft fn : String) (st : MergeSt) (d : String)
    (v : PyVal) (es : List (String × PyVal)) :
    entriesFold ft fn st ((d, v) :: es) =
      if isListV v then
        match recordsFold ft fn d st (listItems v) with
        | Except.error e => Except.error e
        | Except.ok st2 => entriesFold ft fn st2 es
      else entriesFold ft fn st es := rfl

theorem mergeResults_skip_middle (pre : List DocResult) :
    ∀ st (r : DocResult) (post : List DocResult), skipResult r = true →
      mergeResults st (pre ++ r :: post) = mergeResults st (pre ++ post) := by
  induction pre with
  | nil =>
    intro st r post h
    rw [List.nil_append, List.nil_append, mergeResults_cons,
      docProcess_skip st r h]
  | cons p pre ih =>
    intro st r post h
    rw [List.cons_append, List.cons_append, mergeResults_cons, mergeResults_cons]
    cases docProcess st p with
    | error e => rfl
    | ok st2 => exact ih st2 r post h

theorem entriesFold_skip_nonlist (es1 : List (String × PyVal)) :
    ∀ ft fn st d (v : PyVal) (es2 : List (String × PyVal)), isListV v = false →
      entriesFold ft fn st (es1 ++ (d, v) :: es2) = entriesFold ft fn st (es1 ++ es2) := by
  induction es1 with
  | nil =>
    intro ft fn st d v es2 h
    rw [List.nil_append, List.nil_append, entriesFold_cons, if_neg]
    simp [h]
  | cons e es1 ih =>
    intro ft fn st d v es2 h
    cases e with
    | mk d1 v1 =>
      rw [List.cons_append, List.cons_append, entriesFold_cons, entriesFold_cons]
      by_cases hv : isListV v1 = true
      · rw [if_pos hv, if_pos hv]
        cases recordsFold ft fn d1 st (listItems v1) with
        | error e => rfl
        | ok st2 => exact ih ft fn st2 d v es2 h
      · rw [if_neg hv, if_neg hv]
        exact ih ft fn st d v es2 h

/-- C3. In `create_combined_patient_timeline`: (a) a per-document result
    whose structured data is empty or carries the "error" key contributes
    nothing — deleting it from anywhere in the batch leaves the merge of
    the remaining documents (which are therefore still processed)
    unchanged; (b) within a processed document, a date key whose value is
    not a list contributes nothing — deleting that entry leaves the
    document's fold unchanged, the remaining entries still processed. -/
theorem c3_merger_skips :
    (∀ st (pre post : List DocResult) (r : DocResult), skipResult r = true →
      mergeResults st (pre ++ r :: post) = mergeResults st (pre ++ post)) ∧
    (∀ ft fn st (es1 es2 : List (String × PyVal)) d (v : PyVal),
      isListV v = false →
      entriesFold ft fn st (es1 ++ (d, v) :: es2) =
        entriesFold ft fn st (es1 ++ es2)) :=
  ⟨fun st pre post r h => mergeResults_skip_middle pre st r post h,
   fun ft fn st es1 es2 d v h => entriesFold_skip_nonlist es1 ft fn st d v es2 h⟩

/-- C3 witness: a concrete errored lab document between two healthy ones
    is skipped, and a concrete non-list date value is skipped. -/
theorem c3_merger_skips_witness :
    mergeResults mergeInit
      [⟨"a.pdf", "Lab Results", [("1-Jan-2020", .lst [.dict []])]⟩,
       ⟨"c.pdf", "Lab Results", [("error", .str "Parsing failed: x")]⟩,
       ⟨"b.pdf", "Medical Records", [("1-Jan-2020", .lst [.dict []])]⟩] =
    mergeResults mergeInit
      [⟨"a.pdf", "Lab Results", [("1-Jan-2020", .lst [.dict []])]⟩,
       ⟨"b.pdf", "Medical Records", [("1-Jan-2020", .lst [.dict []])]⟩] ∧
    entriesFold "Lab Results" "a.pdf" mergeInit
      [("1-Jan-2020", .lst [.dict []]), ("2-Jan-2020", .str "oops")] =
    entriesFold "Lab Results" "a.pdf" mergeInit
      [("1-Jan-2020", .lst [.dict []])] :=
  ⟨c3_merger_skips.1 mergeInit
      [⟨"a.pdf", "Lab Results", [("1-Jan-2020", .lst [.dict []])]⟩]
      [⟨"b.pdf", "Medical Records", [("1-Jan-2020", .lst [.dict []])]⟩]
      ⟨"c.pdf", "Lab Results", [("error", .str "Parsing failed: x")]⟩ rfl,
   c3_merger_skips.2 "Lab Results" "a.pdf" mergeInit
      [("1-Jan-2020", .lst [.dict []])] [] "2-Jan-2020" (.str "oops") rfl⟩

/-! ## C4 — order preservation in the merger -/

theorem appendAt_nil (d : String) (v : α) : appendAt d v [] = [(d, [v])] := rfl

theorem appendAt_cons (d : String) (v : α) (k : String) (vs : List α)
    (tl : List (String × List α)) :
    appendAt d v ((k, vs) :: tl) =
      if k = d then (k, vs ++ [v]) :: tl else (k, vs) :: appendAt d v tl := rfl

theorem bucketAt_nil (d : String) : bucketAt d [] = [] := rfl

theorem bucketAt_cons (d k : String) (vs : List PyVal)
    (tl : List (String × List PyVal)) :
    bucketAt d ((k, vs) :: tl) = if k = d then vs else bucketAt d tl := rfl

theorem bucketAt_appendAt (tl : List (String × List PyVal)) :
    ∀ (d d2 : String) (v : PyVal),
      bucketAt d (appendAt d2 v tl) =
        if d = d2 then bucketAt d tl ++ [v] else bucketAt d tl := by
  induction tl with
  | nil =>
    intro d d2 v
    rw [appendAt_nil, bucketAt_cons, bucketAt_nil]
    by_cases h : d = d2
    · rw [if_pos h.symm, if_pos h]
      rfl
    · rw [if_neg fun hh => h hh.symm, if_neg h]
  | cons pr tl ih =>
    intro d d2 v
    cases pr with
    | mk k vs =>
      rw [appendAt_cons]
      by_cases hk : k = d2
      · rw [if_pos hk, bucketAt_cons, bucketAt_cons]
        by_cases hd : k = d
        · rw [if_pos hd, if_pos hd, if_pos (hd.symm.trans hk)]
        · rw [if_neg hd, if_neg (fun hdd : d = d2 => hd (hk.trans hdd.symm)),
            if_neg hd]
      · rw [if_neg hk, bucketAt_cons, bucketAt_cons]
        by_cases hd : k = d
        · rw [if_pos hd, if_pos hd, if_neg (fun hdd : d = d2 => hk (hd.trans hdd))]
        · rw [if_neg hd, if_neg hd, ih d d2 v]

/-- The events a valid non-skipped document appends under one date key,
    with the `recordStep` state threading made explicit. -/
theorem recordsFold_good (recs : List PyVal) :
    ∀ (ft fn d : String) (st : MergeSt),
      (ft = "Lab Results" ∨
        (ft = "Medical Records" ∧ ∀ r ∈ recs, isDictV r = true)) →
      ∃ st2, recordsFold ft fn d st recs = Except.ok st2 ∧
        ∀ d2, bucketAt d2 st2.timeline =
          bucketAt d2 st.timeline ++
            (if d2 = d then recs.map (eventOf ft fn) else []) := by
  induction recs with
  | nil =>
    intro ft fn d st _
    refine ⟨st, rfl, ?_⟩
    intro d2
    by_cases h : d2 = d <;> simp [h]
  | cons raw rest ih =>
    intro ft fn d st hgood
    have hstep : ∃ ev, recordStep ft fn d raw st =
        Except.ok ⟨appendAt d ev st.timeline, some ev⟩ ∧
        ev = eventOf ft fn raw := by
      rcases hgood with hlab | ⟨hmed, hdict⟩
      · subst hlab
        exact ⟨PyVal.dict [("record_type", .str "Lab Results"),
          ("source_file", .str fn), ("tests", .lst [raw])], rfl, rfl⟩
      · subst hmed
        have hr : isDictV raw = true := hdict raw (List.mem_cons_self raw rest)
        cases raw with
        | dict kvs =>
          exact ⟨PyVal.dict (pyDictMerge
            [("record_type", .str "Medical Records"),
             ("source_file", .str fn)] kvs), rfl, rfl⟩
        | pnone => simp [isDictV] at hr
        | str s => simp [isDictV] at hr
        | lst xs => simp [isDictV] at hr
    obtain ⟨ev, hstep, hev⟩ := hstep
    have hgood2 : ft = "Lab Results" ∨
        (ft = "Medical Records" ∧ ∀ r ∈ rest, isDictV r = true) := by
      rcases hgood with hlab | ⟨hmed, hdict⟩
      · exact Or.inl hlab
      · exact Or.inr ⟨hmed, fun r hr => hdict r (List.mem_cons_of_mem raw hr)⟩
    obtain ⟨st2, hfold, hbucket⟩ :=
      ih ft fn d ⟨appendAt d ev st.timeline, some ev⟩ hgood2
    refine ⟨st2, ?_, ?_⟩
    · show (match recordStep ft fn d raw st with
            | Except.error e => Except.error e
            | Except.ok st2 => recordsFold ft fn d st2 rest) = Except.ok st2
      rw [hstep]
      exact hfold
    · intro d2
      rw [hbucket d2]
      show bucketAt d2 (appendAt d ev st.timeline) ++ _ = _
      rw [bucketAt_appendAt st.timeline d2 d ev]
      by_cases h : d2 = d
      · simp [h, hev]
      · simp [h]

/-- The per-entry flatMap a document contributes at date `d2` (matching
    `docEventsAt` once the skip guard is discharged). -/
theorem entriesFold_good (entries : List (String × PyVal)) :
    ∀ (ft fn : String) (st : MergeSt),
      (ft = "Lab Results" ∨
        (ft = "Medical Records" ∧
          ∀ pr ∈ entries, ∀ r ∈ listItems pr.2, isDictV r = true)) →
      ∃ st2, entriesFold ft fn st entries = Except.ok st2 ∧
        ∀ d2, bucketAt d2 st2.timeline =
          bucketAt d2 st.timeline ++
            entries.flatMap (fun pr =>
              if pr.1 == d2 && isListV pr.2 then
                (listItems pr.2).map (eventOf ft fn)
              else []) := by
  induction entries with
  | nil =>
    intro ft fn st _
    exact ⟨st, rfl, fun d2 => by simp⟩
  | cons e rest ih =>
    intro ft fn st hgood
    have hgood2 : ft = "Lab Results" ∨
        (ft = "Medical Records" ∧
          ∀ pr ∈ rest, ∀ r ∈ listItems pr.2, isDictV r = true) := by
      rcases hgood with hlab | ⟨hmed, hdict⟩
      · exact Or.inl hlab
      · exact Or.inr ⟨hmed, fun pr hpr => hdict pr (List.mem_cons_of_mem e hpr)⟩
    cases e with
    | mk d v =>
      rw [entriesFold_cons]
      by_cases hv : isListV v = true
      · rw [if_pos hv]
        have hrecs : ft = "Lab Results" ∨
            (ft = "Medical Records" ∧ ∀ r ∈ listItems v, isDictV r = true) := by
          rcases hgood with hlab | ⟨hmed, hdict⟩
          · exact Or.inl hlab
          · exact Or.inr ⟨hmed, fun r hr =>
              hdict (d, v) (List.mem_cons_self _ _) r hr⟩
        obtain ⟨stm, hfold, hbucket⟩ := recordsFold_good (listItems v) ft fn d st hrecs
        rw [hfold]
        obtain ⟨st2, hfold2, hbucket2⟩ := ih ft fn stm hgood2
        refine ⟨st2, hfold2, ?_⟩
        intro d2
        rw [hbucket2 d2, hbucket d2, List.flatMap_cons, List.append_assoc]
        congr 1
        by_cases h : d2 = d
        · subst h
          simp [hv]
        · have : ¬ d = d2 := fun hh => h hh.symm
          simp [h, beq_iff_eq, this]
      · rw [if_neg hv]
        obtain ⟨st2, hfold2, hbucket2⟩ := ih ft fn st hgood2
        refine ⟨st2, hfold2, ?_⟩
        intro d2
        rw [hbucket2 d2, List.flatMap_cons]
        have hvf : isListV v = false := by
          cases hvv : isListV v
          · rfl
          · exact absurd hvv hv
        simp [hvf]

theorem docProcess_good (r : DocResult) (st : MergeSt)
    (hv : validResult r = true) :
    ∃ st2, docProcess st r = Except.ok st2 ∧
      ∀ d, bucketAt d st2.timeline = bucketAt d st.timeline ++ docEventsAt d r := by
  by_cases hskip : skipResult r = true
  · refine ⟨st, docProcess_skip st r hskip, ?_⟩
    intro d
    simp [docEventsAt, hskip]
  · have hskipf : skipResult r = false := by
      cases hss : skipResult r
      · rfl
      · exact absurd hss hskip
    have hgood : r.file_type = "Lab Results" ∨
        (r.file_type = "Medical Records" ∧
          ∀ pr ∈ r.structured_data, ∀ rec ∈ listItems pr.2, isDictV rec = true) := by
      simp only [validResult, hskipf, Bool.false_or, Bool.or_eq_true,
        Bool.and_eq_true, beq_iff_eq, List.all_eq_true] at hv
      rcases hv with hlab | ⟨hmed, hall⟩
      · exact Or.inl hlab
      · exact Or.inr ⟨hmed, fun pr hpr rec hrec => hall pr hpr rec hrec⟩
    obtain ⟨st2, hfold, hbucket⟩ :=
      entriesFold_good r.structured_data r.file_type r.original_filename st hgood
    refine ⟨st2, ?_, ?_⟩
    · show (if skipResult r then Except.ok st else _) = _
      rw [hskipf]
      simpa using hfold
    · intro d
      rw [hbucket d]
      congr 1
      simp [docEventsAt, hskipf]

theorem mergeResults_good (results : List DocResult) :
    ∀ st, (∀ r ∈ results, validResult r = true) →
      ∃ st2, mergeResults st results = Except.ok st2 ∧
        ∀ d, bucketAt d st2.timeline =
          bucketAt d st.timeline ++ results.flatMap (docEventsAt d) := by
  induction results with
  | nil =>
    intro st _
    exact ⟨st, rfl, fun d => by simp⟩
  | cons r rest ih =>
    intro st hv
    obtain ⟨stm, hdoc, hbucket⟩ :=
      docProcess_good r st (hv r (List.mem_cons_self r rest))
    obtain ⟨st2, hfold, hbucket2⟩ :=
      ih stm fun q hq => hv q (List.mem_cons_of_mem r hq)
    refine ⟨st2, ?_, ?_⟩
    · rw [mergeResults_cons, hdoc]
      exact hfold
    · intro d
      rw [hbucket2 d, hbucket d, List.flatMap_cons, List.append_assoc]

/-- C4. For every batch of per-document results the merger can process
    (each result either skipped, a Lab Results document, or a Medical
    Records document whose records are dicts — which is what the pipeline
    produces), the merge succeeds and, for every date, the timeline's
    bucket for that date is exactly the concatenation, in document order,
    of each document's events for that date, each document's events
    appearing in the order of its per-date records lists: earlier
    documents' events precede later documents' events and no secondary
    sorting is applied. -/
theorem c4_merger_order (results : List DocResult)
    (hv : results.all validResult = true) :
    ∃ st2, mergeResults mergeInit results = Except.ok st2 ∧
      ∀ d, bucketAt d st2.timeline = results.flatMap (docEventsAt d) := by
  have hv2 : ∀ r ∈ results, validResult r = true := by
    rw [List.all_eq_true] at hv
    exact hv
  obtain ⟨st2, hm, hb⟩ := mergeResults_good results mergeInit hv2
  exact ⟨st2, hm, fun d => by simpa using hb d⟩

def c4wLab : DocResult :=
  ⟨"lab.pdf", "Lab Results", [("1-Jan-2020", .lst [.dict [("t", .str "v")]])]⟩

def c4wMed : DocResult :=
  ⟨"med.pdf", "Medical Records",
   [("1-Jan-2020", .lst [.dict [("doctor", .str "D")]])]⟩

/-- C4 witness: a concrete lab + medical batch satisfies the validity
    hypothesis and the order-preservation conclusion. -/
theorem c4_merger_order_witness :
    ([c4wLab, c4wMed].all validResult = true) ∧
    (∃ st2, mergeResults mergeInit [c4wLab, c4wMed] = Except.ok st2 ∧
      ∀ d, bucketAt d st2.timeline = [c4wLab, c4wMed].flatMap (docEventsAt d)) :=
  ⟨rfl, c4_merger_order [c4wLab, c4wMed] rfl⟩

/-! ## C5 — the "LAST UPDATED:" terminator transition of the clinical-note
    state machine -/

/-- C5. In the clinical-note segmenter's per-line transition: whenever the
    machine is inside a note and the current line — which survives the junk
    filter and is not a new section header (the machine's earlier rules) —
    begins, after stripping, with "LAST UPDATED:" case-insensitively, the
    stripped line is appended to the buffer, the buffered note is emitted as
    a finished record, the buffer is cleared and the machine leaves the
    note; and while outside a note, an ordinary (non-junk, non-header) line
    changes nothing, so lines before the next header belong to no note. -/
theorem c5_last_updated_terminator :
    (∀ (st : SegSt) (line : String), st.inside = true →
      isJunkLine (pyStrip line) = false →
      isDmoSectionHeader line = false →
      isLastUpdatedLine (pyStrip line) = true →
      segStep st line =
        ⟨st.sections ++ [flushBuf (st.current ++ [pyStrip line])], [], false⟩) ∧
    (∀ (st : SegSt) (line : String), st.inside = false →
      isJunkLine (pyStrip line) = false →
      isDmoSectionHeader line = false →
      segStep st line = st) := by
  constructor
  · intro st line hin hjunk hhdr hlast
    simp [segStep, hjunk, hhdr, hin, hlast]
  · intro st line hout hjunk hhdr
    simp [segStep, hjunk, hhdr, hout]

/-- C5 witness: a concrete in-note state and terminator line take the
    transition, and a concrete out-of-note ordinary line is ignored. -/
theorem c5_last_updated_terminator_witness :
    (SegSt.inside ⟨["s0"], ["DMO hdr", "body"], true⟩ = true ∧
     isJunkLine (pyStrip "Last updated: 1-Jan-2020 by A (Doctor)") = false ∧
     isDmoSectionHeader "Last updated: 1-Jan-2020 by A (Doctor)" = false ∧
     isLastUpdatedLine (pyStrip "Last updated: 1-Jan-2020 by A (Doctor)") = true ∧
     segStep ⟨["s0"], ["DMO hdr", "body"], true⟩
         "Last updated: 1-Jan-2020 by A (Doctor)" =
       ⟨["s0",
         flushBuf ["DMO hdr", "body", "Last updated: 1-Jan-2020 by A (Doctor)"]],
        [], false⟩) ∧
    segStep ⟨["s0"], [], false⟩ "an ordinary line" = ⟨["s0"], [], false⟩ :=
  ⟨⟨rfl, rfl, rfl, rfl,
    c5_last_updated_terminator.1 ⟨["s0"], ["DMO hdr", "body"], true⟩
      "Last updated: 1-Jan-2020 by A (Doctor)" rfl rfl rfl rfl⟩,
   c5_last_updated_terminator.2 ⟨["s0"], [], false⟩ "an ordinary line"
     rfl rfl rfl⟩

/-! ## C8 — end-of-stream flush of the clinical-note state machine -/

theorem segStep_preserves_nonempty (st : SegSt) (line : String)
    (h : st.inside = true → ¬ st.current = []) :
    (segStep st line).inside = true → ¬ (segStep st line).current = [] := by
  intro h2
  by_cases hjunk : isJunkLine (pyStrip line) = true
  · simp only [segStep, hjunk, if_true] at h2 ⊢
    exact h h2
  · have hjunkf : isJunkLine (pyStrip line) = false := by
      cases hj : isJunkLine (pyStrip line)
      · rfl
      · exact absurd hj hjunk
    by_cases hhdr : isDmoSectionHeader line = true
    · simp [segStep, hjunkf, hhdr]
    · have hhdrf : isDmoSectionHeader line = false := by
        cases hh : isDmoSectionHeader line
        · rfl
        · exact absurd hh hhdr
      by_cases hin : st.inside = true
      · by_cases hlast : isLastUpdatedLine (pyStrip line) = true
        · simp [segStep, hjunkf, hhdrf, hin, hlast] at h2
        · have hlastf : isLastUpdatedLine (pyStrip line) = false := by
            cases hl : isLastUpdatedLine (pyStrip line)
            · rfl
            · exact absurd hl hlast
          simp [segStep, hjunkf, hhdrf, hin, hlastf]
      · have hinf : st.inside = false := by
          cases hi : st.inside
          · rfl
          · exact absurd hi hin
        simp only [segStep, hjunkf, hhdrf, hinf] at h2 ⊢
        simp at h2 ⊢
        exact h (by rw [hinf] at h2 ⊢; exact h2)

theorem segFold_preserves_nonempty (lines : List String) :
    ∀ st : SegSt, (st.inside = true → ¬ st.current = []) →
      ((lines.foldl segStep st).inside = true →
        ¬ (lines.foldl segStep st).current = []) := by
  induction lines with
  | nil => intro st h; exact h
  | cons l ls ih =>
    intro st h
    exact ih (segStep st l) (segStep_preserves_nonempty st l h)

theorem segFinal_inside_nonempty (text : String) :
    (segFinal text).inside = true → ¬ (segFinal text).current = [] := by
  exact segFold_preserves_nonempty (pySplitlines text) ⟨[], [], false⟩
    (by intro h; cases h)

/-- C8. For every input text of the clinical-note segmenter: if the line
    stream ends while the machine is inside a note, the buffer is nonempty
    and its content is emitted as one final (possibly incomplete) record
    after the completed sections; and if the buffer is empty at end of
    stream, no additional record is emitted. -/
theorem c8_trailing_flush (text : String) :
    ((segFinal text).inside = true →
      extractDmoSections text =
        (segFinal text).sections ++ [flushBuf (segFinal text).current]) ∧
    ((segFinal text).current = [] →
      extractDmoSections text = (segFinal text).sections) := by
  constructor
  · intro hin
    have hne := segFinal_inside_nonempty text hin
    have hempty : (segFinal text).current.isEmpty = false := by
      cases hc : (segFinal text).current
      · exact absurd hc hne
      · rfl
    rw [extractDmoSections, hempty]
    simp
  · intro hcur
    rw [extractDmoSections, hcur]
    simp

/-- C8 witness: a stream ending mid-note flushes the partial note; a
    stream with an empty buffer emits nothing extra. -/
theorem c8_trailing_flush_witness :
    ((segFinal "DMO Consult [Charted Location: w\npartial body").inside = true ∧
     extractDmoSections "DMO Consult [Charted Location: w\npartial body" =
       (segFinal "DMO Consult [Charted Location: w\npartial body").sections ++
         [flushBuf (segFinal "DMO Consult [Charted Location: w\npartial body").current]) ∧
    ((segFinal "plain text").current = [] ∧
     extractDmoSections "plain text" = (segFinal "plain text").sections) :=
  ⟨⟨rfl, (c8_trailing_flush "DMO Consult [Charted Location: w\npartial body").1 rfl⟩,
   ⟨rfl, (c8_trailing_flush "plain text").2 rfl⟩⟩

/-! ## C7 — pattern misses degrade to "UNKNOWN"; the record is still
    enriched and appended -/

/-- Total number of records across all date buckets of a timeline. -/
def timelineTotal (tl : List (String × List PyVal)) : Nat :=
  (tl.map fun pr => pr.2.length).sum

theorem timelineTotal_appendAt (tl : List (String × List PyVal)) :
    ∀ (d : String) (v : PyVal),
      timelineTotal (appendAt d v tl) = timelineTotal tl + 1 := by
  induction tl with
  | nil => intro d v; rfl
  | cons pr tl ih =>
    intro d v
    cases pr with
    | mk k vs =>
      rw [appendAt_cons]
      by_cases hk : k = d
      · rw [if_pos hk]
        simp [timelineTotal]
        omega
      · rw [if_neg hk]
        simp only [timelineTotal, List.map_cons, List.sum_cons] at ih ⊢
        rw [ih d v]
        omega

/-- C7. For every extracted clinical-note section (nonempty, as
    `extract_dmo_sections` guarantees — on the empty string CPython's
    `splitlines()[0]` would raise instead), `parse_dmo_metadata` returns
    "UNKNOWN" for the authored date when the `Authored:` date pattern finds
    no match, "UNKNOWN" for the doctor name when the
    `Last Updated ... by ... (Doctor)` pattern finds no match, and
    "UNKNOWN" for the section type when the section's first line does not
    match the DMO header pattern; and `build_timeline` still enriches and
    appends every section — the total number of timeline records equals the
    number of sections, none discarded. -/
theorem c7_unknown_sentinels (sec : String) (hne : ¬ sec = "") :
    (authoredSearch sec = Option.none →
      (parseDmoMetadata sec).1 = "UNKNOWN") ∧
    (doctorSearch sec = Option.none →
      (parseDmoMetadata sec).2.1 = "UNKNOWN") ∧
    (matchDmoSectionHeader ((pySplitlines sec).headD "") = Option.none →
      (parseDmoMetadata sec).2.2 = "UNKNOWN") ∧
    (∀ (headers : List String) (monthMap abbrMap : List (String × String))
       (secs : List String),
      timelineTotal (buildTimelineFromSections headers monthMap abbrMap secs) =
        secs.length) := by
  refine ⟨?_, ?_, ?_, ?_⟩
  · intro h; simp [parseDmoMetadata, h]
  · intro h; simp [parseDmoMetadata, h]
  · intro h
    simp at h
    simp [parseDmoMetadata, h]
  · intro headers monthMap abbrMap secs
    have main : ∀ (ss : List String) (tl : List (String × List PyVal)),
        timelineTotal (ss.foldl
          (fun tl sec =>
            let pr := buildTimelineEntry headers monthMap abbrMap sec
            appendAt pr.1 pr.2 tl) tl) = timelineTotal tl + ss.length := by
      intro ss
      induction ss with
      | nil => intro tl; simp
      | cons s ss ih =>
        intro tl
        rw [List.foldl_cons, ih, timelineTotal_appendAt]
        simp [List.length_cons]
        omega
    have := main secs []
    rw [buildTimelineFromSections, this]
    simp [timelineTotal]

/-- C7 witness: a section matching none of the three patterns yields the
    three "UNKNOWN" placeholders, and a one-section batch produces exactly
    one timeline record. -/
theorem c7_unknown_sentinels_witness :
    (¬ ("just a note body" : String) = "" ∧
     authoredSearch "just a note body" = Option.none ∧
     doctorSearch "just a note body" = Option.none ∧
     matchDmoSectionHeader ((pySplitlines "just a note body").headD "") =
       Option.none) ∧
    parseDmoMetadata "just a note body" = ("UNKNOWN", "UNKNOWN", "UNKNOWN") ∧
    timelineTotal (buildTimelineFromSections [] [] [] ["just a note body"]) = 1 := by
  refine ⟨⟨by decide, rfl, rfl, rfl⟩, ?_, ?_⟩
  · have h := c7_unknown_sentinels "just a note body" (by decide)
    have h1 := h.1 rfl
    have h2 := h.2.1 rfl
    have h3 := h.2.2.1 rfl
    cases hm : parseDmoMetadata "just a note body" with
    | mk a pr =>
      cases pr with
      | mk b c =>
        rw [hm] at h1 h2 h3
        simp at h1 h2 h3
        rw [h1, h2, h3]
  · exact (c7_unknown_sentinels "just a note body" (by decide)).2.2.2
      [] [] [] ["just a note body"]

/-! ## C9 — every top-level date key is DD-Mon-YYYY or "UNKNOWN" -/

theorem expectCount_spec (p : Char → Bool) :
    ∀ (n : Nat) (cs xs r : List Char), expectCount p n cs = some (xs, r) →
      cs = xs ++ r ∧ xs.length = n ∧ ∀ c ∈ xs, p c = true := by
  intro n
  induction n with
  | zero =>
    intro cs xs r h
    simp [expectCount] at h
    obtain ⟨h1, h2⟩ := h
    subst h1; subst h2
    simp
  | succ n ih =>
    intro cs xs r h
    cases cs with
    | nil => simp [expectCount] at h
    | cons c cs =>
      simp only [expectCount] at h
      by_cases hp : p c = true
      · rw [if_pos hp] at h
        cases hec : expectCount p n cs with
        | none => rw [hec] at h; simp at h
        | some pr =>
          rw [hec] at h
          simp at h
          obtain ⟨h1, h2⟩ := h
          obtain ⟨hcs, hlen, hall⟩ := ih cs pr.1 pr.2 (by rw [hec])
          subst h1; subst h2
          refine ⟨by simp [← hcs], by simp [hlen], ?_⟩
          intro x hx
          rcases List.mem_cons.mp hx with hx | hx
          · subst hx; exact hp
          · exact hall x hx
      · rw [if_neg hp] at h
        simp at h

theorem expectCount_of_spec (p : Char → Bool) :
    ∀ (xs r : List Char), (∀ c ∈ xs, p c = true) →
      expectCount p xs.length (xs ++ r) = some (xs, r) := by
  intro xs
  induction xs with
  | nil => intro r _; rfl
  | cons c cs ih =>
    intro r hall
    have hp : p c = true := hall c (List.mem_cons_self c cs)
    have ih2 := ih r fun x hx => hall x (List.mem_cons_of_mem c hx)
    simp only [List.length_cons, List.cons_append, expectCount, hp, if_true]
    rw [List.append_eq, ih2]
    rfl

/-- Structure of a successful fixed-day-width date match. -/
theorem matchDateWithDay_spec (k : Nat) (cs : List Char) (dp : DateParts)
    (r : List Char) (h : matchDateWithDay k cs = some (dp, r)) :
    cs = dp.chars ++ r ∧ dp.day.length = k ∧
      (∀ c ∈ dp.day, isAsciiDigit c = true) ∧
      dp.mon.length = 3 ∧ (∀ c ∈ dp.mon, isAsciiAlpha c = true) ∧
      dp.year.length = 4 ∧ (∀ c ∈ dp.year, isAsciiDigit c = true) := by
  unfold matchDateWithDay at h
  split at h
  · exact absurd h (by simp)
  · rename_i day r1 h1
    split at h
    · rename_i r2
      split at h
      · exact absurd h (by simp)
      · rename_i mon r3 h2
        split at h
        · rename_i r4
          split at h
          · exact absurd h (by simp)
          · rename_i year r5 h3
            simp only [Option.some.injEq, Prod.mk.injEq] at h
            obtain ⟨hdp, hr⟩ := h
            subst hdp
            subst hr
            obtain ⟨hcs1, hlen1, hall1⟩ :=
              expectCount_spec isAsciiDigit k cs day _ h1
            obtain ⟨hcs2, hlen2, hall2⟩ :=
              expectCount_spec isAsciiAlpha 3 r2 mon _ h2
            obtain ⟨hcs3, hlen3, hall3⟩ :=
              expectCount_spec isAsciiDigit 4 r4 year _ h3
            refine ⟨?_, hlen1, hall1, hlen2, hall2, hlen3, hall3⟩
            rw [hcs1, hcs2, hcs3]
            simp [DateParts.chars]
        · exact absurd h (by simp)
    · exact absurd h (by simp)

theorem matchDateWithDay_build (day mon year r2 : List Char)
    (hday : ∀ c ∈ day, isAsciiDigit c = true)
    (hmon3 : mon.length = 3) (hmon : ∀ c ∈ mon, isAsciiAlpha c = true)
    (hyear4 : year.length = 4) (hyear : ∀ c ∈ year, isAsciiDigit c = true) :
    matchDateWithDay day.length (day ++ '-' :: (mon ++ '-' :: (year ++ r2))) =
      some (⟨day, mon, year⟩, r2) := by
  have e1 := expectCount_of_spec isAsciiDigit day
    ('-' :: (mon ++ '-' :: (year ++ r2))) hday
  have e2 := expectCount_of_spec isAsciiAlpha mon ('-' :: (year ++ r2)) hmon
  have e3 := expectCount_of_spec isAsciiDigit year r2 hyear
  rw [hmon3] at e2
  rw [hyear4] at e3
  unfold matchDateWithDay
  rw [e1]
  simp only []
  rw [e2]
  simp only []
  rw [e3]

theorem expectCount_two_dash (d : Char) (rest : List Char) :
    expectCount isAsciiDigit 2 (d :: '-' :: rest) = Option.none := by
  by_cases hd : isAsciiDigit d = true
  · simp [expectCount, hd, show isAsciiDigit '-' = false from rfl]
  · simp [expectCount, hd]

theorem matchDateParts_redo (cs : List Char) (dp : DateParts) (r : List Char)
    (h : matchDateParts cs = some (dp, r)) :
    ∀ r2, matchDateParts (dp.chars ++ r2) = some (dp, r2) := by
  intro r2
  unfold matchDateParts at h ⊢
  cases h2 : matchDateWithDay 2 cs with
  | some pr =>
    rw [h2] at h
    simp [Option.orElse] at h
    obtain ⟨hdp, hr⟩ : pr.1 = dp ∧ pr.2 = r := by
      cases pr with
      | mk a b => simpa using h
    obtain ⟨hcs, hlen, hday, hmon3, hmon, hyear4, hyear⟩ :=
      matchDateWithDay_spec 2 cs dp r (by
        rw [h2]
        cases pr with
        | mk a b =>
          simp at hdp hr
          rw [hdp, hr])
    cases dp with
    | mk day mon year =>
      have hb := matchDateWithDay_build day mon year r2 hday hmon3 hmon hyear4 hyear
      rw [hlen] at hb
      have hchars : DateParts.chars ⟨day, mon, year⟩ ++ r2 =
          day ++ '-' :: (mon ++ '-' :: (year ++ r2)) := by
        simp [DateParts.chars]
      rw [hchars, hb]
      rfl
  | none =>
    rw [h2] at h
    simp [Option.orElse] at h
    obtain ⟨hcs, hlen, hday, hmon3, hmon, hyear4, hyear⟩ :=
      matchDateWithDay_spec 1 cs dp r h
    cases dp with
    | mk day mon year =>
      have hb := matchDateWithDay_build day mon year r2 hday hmon3 hmon hyear4 hyear
      rw [hlen] at hb
      cases day with
      | nil => simp at hlen
      | cons d dtail =>
        have hdt : dtail = [] := by
          simp at hlen
          exact hlen
        subst hdt
        have hchars : DateParts.chars ⟨[d], mon, year⟩ ++ r2 =
            d :: '-' :: (mon ++ '-' :: (year ++ r2)) := by
          simp [DateParts.chars]
        rw [hchars]
        have h2d : matchDateWithDay 2 (d :: '-' :: (mon ++ '-' :: (year ++ r2))) =
            Option.none := by
          unfold matchDateWithDay
          rw [expectCount_two_dash]
        rw [h2d]
        have hb2 : matchDateWithDay 1 (d :: '-' :: (mon ++ '-' :: (year ++ r2))) =
            some (⟨[d], mon, year⟩, r2) := by
          have : ([d] : List Char) ++ '-' :: (mon ++ '-' :: (year ++ r2)) =
              d :: '-' :: (mon ++ '-' :: (year ++ r2)) := by simp
          rw [← this]
          exact hb
        rw [hb2]
        rfl

theorem matchDateParts_spec (cs : List Char) (dp : DateParts) (r : List Char)
    (h : matchDateParts cs = some (dp, r)) :
    cs = dp.chars ++ r ∧ 1 ≤ dp.day.length ∧
      (∀ c ∈ dp.day, isAsciiDigit c = true) ∧
      dp.mon.length = 3 ∧ (∀ c ∈ dp.mon, isAsciiAlpha c = true) ∧
      dp.year.length = 4 ∧ (∀ c ∈ dp.year, isAsciiDigit c = true) := by
  unfold matchDateParts at h
  cases h2 : matchDateWithDay 2 cs with
  | some pr =>
    rw [h2] at h
    simp [Option.orElse] at h
    have hpr : matchDateWithDay 2 cs = some (dp, r) := by
      rw [h2]
      cases pr with
      | mk a b =>
        simp at h
        rw [h.1, h.2]
    obtain ⟨hcs, hlen, hday, hrest⟩ := matchDateWithDay_spec 2 cs dp r hpr
    exact ⟨hcs, by omega, hday, hrest⟩
  | none =>
    rw [h2] at h
    simp [Option.orElse] at h
    obtain ⟨hcs, hlen, hday, hrest⟩ := matchDateWithDay_spec 1 cs dp r h
    exact ⟨hcs, by omega, hday, hrest⟩

theorem matchDateParts_shape (cs : List Char) (dp : DateParts) (r : List Char)
    (h : matchDateParts cs = some (dp, r)) :
    isDayMonYear (String.mk dp.chars) = true := by
  have hredo := matchDateParts_redo cs dp r h []
  rw [List.append_nil] at hredo
  unfold isDayMonYear
  rw [show (String.mk dp.chars).data = dp.chars from rfl, hredo]
  rfl

theorem authoredAt_shape (cs dc : List Char) (h : authoredAt cs = some dc) :
    ∃ cs2 dp r, matchDateParts cs2 = some (dp, r) ∧ dc = dp.chars := by
  unfold authoredAt at h
  split at h
  · revert h
    cases hm : matchDateParts
        ((cs.drop "Authored:".data.length).dropWhile isPySpace) with
    | some pr =>
      intro h
      simp at h
      exact ⟨_, pr.1, pr.2, by rw [hm], h.symm⟩
    | none =>
      intro h
      exact absurd h (by simp)
  · exact absurd h (by simp)

theorem authoredSearchGo_shape :
    ∀ (fuel : Nat) (cs dc : List Char), authoredSearchGo fuel cs = some dc →
      ∃ cs2 dp r, matchDateParts cs2 = some (dp, r) ∧ dc = dp.chars := by
  intro fuel
  induction fuel with
  | zero => intro cs dc h; exact absurd h (by simp [authoredSearchGo])
  | succ fuel ih =>
    intro cs dc h
    cases cs with
    | nil =>
      rw [show authoredSearchGo (fuel + 1) [] = authoredAt [] from rfl] at h
      exact authoredAt_shape [] dc h
    | cons c cs2 =>
      rw [show authoredSearchGo (fuel + 1) (c :: cs2) =
          (match authoredAt (c :: cs2) with
           | some d => some d
           | Option.none => authoredSearchGo fuel cs2) from rfl] at h
      cases ha : authoredAt (c :: cs2) with
      | some d2 =>
        rw [ha] at h
        simp at h
        subst h
        exact authoredAt_shape (c :: cs2) d2 ha
      | none =>
        rw [ha] at h
        exact ih cs2 dc h

/-- The date captured by the `Authored:` pattern always has the
    DD-Mon-YYYY shape. -/
theorem authoredSearch_shape (s d : String) (h : authoredSearch s = some d) :
    isDayMonYear d = true := by
  unfold authoredSearch at h
  cases hgo : authoredSearchGo (s.data.length + 1) s.data with
  | none => rw [hgo] at h; exact absurd h (by simp)
  | some dc =>
    rw [hgo] at h
    simp at h
    obtain ⟨cs2, dp, r, hm, hdc⟩ :=
      authoredSearchGo_shape (s.data.length + 1) s.data dc hgo
    rw [← h, hdc]
    exact matchDateParts_shape cs2 dp r hm

/-! Stamps produced by the lab splitter re-parse to a shaped date. -/

theorem isPySpace_isAsciiDigit (c : Char) (h : isAsciiDigit c = true) :
    isPySpace c = false := by
  cases hs : isPySpace c
  · rfl
  · exfalso
    simp only [isPySpace, Bool.or_eq_true, decide_eq_true_eq] at hs
    rcases hs with ((((h1 | h1) | h1) | h1) | h1) | h1 <;> subst h1 <;>
      exact absurd h (by decide)

theorem stripChars_no_op (cs : List Char)
    (h1 : ∀ c, cs.head? = some c → isPySpace c = false)
    (h2 : ∀ c, cs.getLast? = some c → isPySpace c = false) :
    stripChars cs = cs := by
  have hfront : cs.dropWhile isPySpace = cs := by
    cases cs with
    | nil => rfl
    | cons c t =>
      rw [List.dropWhile_cons, h1 c rfl]
      simp
  have hback : dropWsEnd cs = cs := by
    unfold dropWsEnd
    have : cs.reverse.dropWhile isPySpace = cs.reverse := by
      cases hr : cs.reverse with
      | nil => rfl
      | cons c t =>
        rw [List.dropWhile_cons, h2 c ?_]
        · simp
        · rw [← List.head?_reverse, hr]
          rfl
    rw [this, List.reverse_reverse]
  unfold stripChars
  rw [hfront, hback]

/-- A stamp returned by `matchStampParts` strips to itself (its first and
    last characters are digits) and re-parses to its date parts, whose text
    has the DD-Mon-YYYY shape. -/
theorem matchStampParts_shape (cs stamp rest : List Char)
    (h : matchStampParts cs = some (stamp, rest)) :
    ∃ dp tail, stripChars stamp = stamp ∧
      matchDateParts stamp = some (dp, tail) ∧
      isDayMonYear (String.mk dp.chars) = true := by
  unfold matchStampParts at h
  split at h
  · exact absurd h (by simp)
  · rename_i dp r1 hdate
    split at h
    · exact absurd h (by simp)
    · rename_i hws
      split at h
      · exact absurd h (by simp)
      · rename_i hh r3 hhh
        split at h
        · rename_i r4
          split at h
          · exact absurd h (by simp)
          · rename_i mm r5 hmm
            simp only [Option.some.injEq, Prod.mk.injEq] at h
            obtain ⟨hstamp, hrest⟩ := h
            obtain ⟨hcs, hdaylen, hday, hrestspec⟩ :=
              matchDateParts_spec cs dp r1 hdate
            obtain ⟨hmmsplit, hmmlen, hmmdig⟩ :=
              expectCount_spec isAsciiDigit 2 r4 mm r5 hmm
            have hredo := matchDateParts_redo cs dp r1 hdate
              (r1.takeWhile isPySpace ++ (hh ++ ':' :: mm))
            refine ⟨dp, r1.takeWhile isPySpace ++ (hh ++ ':' :: mm), ?_, ?_, ?_⟩
            · -- strip is a no-op: first char is a day digit, last a minute digit
              rw [← hstamp]
              apply stripChars_no_op
              · intro c hc
                cases hdp : dp.day with
                | nil =>
                  exfalso
                  rw [hdp] at hdaylen
                  simp at hdaylen
                | cons d0 dt =>
                  have hd0 : isAsciiDigit d0 = true := by
                    apply hday
                    rw [hdp]
                    exact List.mem_cons_self d0 dt
                  have hc0 : c = d0 := by
                    have hch : DateParts.chars dp =
                        d0 :: (dt ++ '-' :: (dp.mon ++ '-' :: dp.year)) := by
                      unfold DateParts.chars
                      rw [hdp]
                      simp
                    rw [hch] at hc
                    simp at hc
                    exact hc.symm
                  rw [hc0]
                  exact isPySpace_isAsciiDigit d0 hd0
              · intro c hc
                have hmm2 : ∃ m1 m2, mm = [m1, m2] := by
                  cases mm with
                  | nil => simp at hmmlen
                  | cons m1 mt =>
                    cases mt with
                    | nil => simp at hmmlen
                    | cons m2 mt2 =>
                      cases mt2 with
                      | nil => exact ⟨m1, m2, rfl⟩
                      | cons m3 mt3 => simp at hmmlen
                obtain ⟨m1, m2, hmm2⟩ := hmm2
                rw [hmm2] at hc
                rw [List.getLast?_append, List.getLast?_append,
                  List.getLast?_append] at hc
                rw [show (':' :: [m1, m2]).getLast? = some m2 from rfl] at hc
                simp [Option.or] at hc
                rw [← hc]
                apply isPySpace_isAsciiDigit
                apply hmmdig
                rw [hmm2]
                simp
            · rw [← hstamp]
              rw [List.append_assoc, List.append_assoc]
              exact hredo
            · exact matchDateParts_shape cs dp r1 hdate
        · exact absurd h (by simp)

theorem splitStampGo_ne_nil :
    ∀ (fuel : Nat) (acc cs : List Char), ¬ splitStampGo fuel acc cs = [] := by
  intro fuel
  induction fuel with
  | zero => intro acc cs; simp [splitStampGo]
  | succ fuel ih =>
    intro acc cs
    cases cs with
    | nil =>
      rw [show splitStampGo (fuel + 1) acc [] = [acc.reverse] from rfl]
      simp
    | cons c cs2 =>
      rw [show splitStampGo (fuel + 1) acc (c :: cs2) =
          (match matchStampParts (c :: cs2) with
           | some (stamp, rest) =>
             acc.reverse :: stamp :: splitStampGo fuel [] rest
           | Option.none => splitStampGo fuel (c :: acc) cs2) from rfl]
      cases matchStampParts (c :: cs2) with
      | some pr => cases pr with | mk a b => simp
      | none => exact ih (c :: acc) cs2

theorem splitStampGo_stamps :
    ∀ (fuel : Nat) (acc cs : List Char) (pr : List Char × List Char),
      pr ∈ stampPairs (splitStampGo fuel acc cs) →
      ∃ cs0 rest, matchStampParts cs0 = some (pr.1, rest) := by
  intro fuel
  induction fuel with
  | zero =>
    intro acc cs pr hpr
    simp [splitStampGo, stampPairs, pairUp] at hpr
  | succ fuel ih =>
    intro acc cs pr hpr
    cases cs with
    | nil =>
      rw [show splitStampGo (fuel + 1) acc [] = [acc.reverse] from rfl] at hpr
      simp [stampPairs, pairUp] at hpr
    | cons c cs2 =>
      rw [show splitStampGo (fuel + 1) acc (c :: cs2) =
          (match matchStampParts (c :: cs2) with
           | some (stamp, rest) =>
             acc.reverse :: stamp :: splitStampGo fuel [] rest
           | Option.none => splitStampGo fuel (c :: acc) cs2) from rfl] at hpr
      cases hm : matchStampParts (c :: cs2) with
      | some pr2 =>
        rw [hm] at hpr
        cases pr2 with
        | mk stamp rest =>
          have hpr1 : pr ∈ stampPairs
              (acc.reverse :: stamp :: splitStampGo fuel [] rest) := hpr
          cases hsp : splitStampGo fuel [] rest with
          | nil => exact absurd hsp (splitStampGo_ne_nil fuel [] rest)
          | cons b l2 =>
            rw [hsp] at hpr1
            have hpr2 : pr ∈ (stamp, b) :: pairUp l2 := hpr1
            rcases List.mem_cons.mp hpr2 with h1 | h1
            · subst h1
              exact ⟨c :: cs2, rest, by rw [hm]⟩
            · apply ih [] rest pr
              rw [hsp]
              exact h1
      | none =>
        rw [hm] at hpr
        exact ih (c :: acc) cs2 pr hpr

/-- Every raw lab record produced by the initial split carries a
    DD-Mon-YYYY date (the "Unknown Date" fallback is unreachable: the
    stamp always re-parses). -/
theorem initialTests_shape (text : String) :
    ∀ t ∈ initialTests text, isDayMonYear t.date = true := by
  intro t ht
  unfold initialTests at ht
  rw [List.mem_filterMap] at ht
  obtain ⟨pr, hpr, hf⟩ := ht
  obtain ⟨cs0, rest0, hm⟩ :=
    splitStampGo_stamps (text.data.length + 1) [] text.data pr hpr
  obtain ⟨dp, tail, hstrip, hparse, hshape⟩ :=
    matchStampParts_shape cs0 pr.1 rest0 hm
  have hdata : (pyStrip (String.mk pr.1)).data = pr.1 := by
    show stripChars pr.1 = pr.1
    exact hstrip
  simp only [hdata] at hf
  rw [hparse] at hf
  split at hf
  · simp at hf
    rw [← hf]
    exact hshape
  · exact absurd hf (by simp)

theorem aggLoop_dates :
    ∀ (ts : List LabTest) (cur t : LabTest), t ∈ aggLoop cur ts →
      t.date = cur.date ∨ ∃ t0 ∈ ts, t.date = t0.date := by
  intro ts
  induction ts with
  | nil =>
    intro cur t ht
    simp [aggLoop] at ht
    subst ht
    exact Or.inl rfl
  | cons t1 ts ih =>
    intro cur t ht
    rw [show aggLoop cur (t1 :: ts) =
        (if keyOf cur = keyOf t1 then aggLoop (merge1 cur t1) ts
         else cur :: aggLoop t1 ts) from rfl] at ht
    by_cases hk : keyOf cur = keyOf t1
    · rw [if_pos hk] at ht
      rcases ih (merge1 cur t1) t ht with h1 | ⟨t0, ht0, h1⟩
      · exact Or.inl h1
      · exact Or.inr ⟨t0, List.mem_cons_of_mem t1 ht0, h1⟩
    · rw [if_neg hk] at ht
      rcases List.mem_cons.mp ht with h1 | h1
      · subst h1; exact Or.inl rfl
      · rcases ih t1 t h1 with h2 | ⟨t0, ht0, h2⟩
        · exact Or.inr ⟨t1, List.mem_cons_self t1 ts, h2⟩
        · exact Or.inr ⟨t0, List.mem_cons_of_mem t1 ht0, h2⟩

theorem parseAllTests_dates (text : String) :
    ∀ t ∈ parseAllTests text, isDayMonYear t.date = true := by
  intro t ht
  unfold parseAllTests aggregateTests at ht
  cases hi : initialTests text with
  | nil => rw [hi] at ht; simp at ht
  | cons t1 ts =>
    rw [hi] at ht
    rcases aggLoop_dates ts t1 t ht with h1 | ⟨t0, ht0, h1⟩
    · rw [h1]
      exact initialTests_shape text t1 (by rw [hi]; exact List.mem_cons_self t1 ts)
    · rw [h1]
      exact initialTests_shape text t0 (by rw [hi]; exact List.mem_cons_of_mem t1 ht0)

theorem appendAt_keys (tl : List (String × List α)) :
    ∀ (d : String) (v : α) (k : String),
      k ∈ (appendAt d v tl).map Prod.fst → k ∈ tl.map Prod.fst ∨ k = d := by
  induction tl with
  | nil =>
    intro d v k hk
    rw [appendAt_nil] at hk
    simp at hk
    exact Or.inr hk
  | cons pr tl ih =>
    intro d v k hk
    cases pr with
    | mk k1 vs =>
      rw [appendAt_cons] at hk
      by_cases h1 : k1 = d
      · rw [if_pos h1] at hk
        simp at hk
        rcases hk with hk | hk
        · subst hk; simp
        · simp [hk]
      · rw [if_neg h1] at hk
        simp at hk
        rcases hk with hk | hk
        · subst hk; simp
        · rcases ih d v k (by simpa using hk) with h2 | h2
          · simp at h2
            simp [h2]
          · exact Or.inr h2

/-- Generic fold-of-appendAt key lemma. -/
theorem foldl_appendAt_keys (f : β → String) (g : β → α) (l : List β) :
    ∀ (tl : List (String × List α)) (k : String),
      k ∈ (l.foldl (fun tl b => appendAt (f b) (g b) tl) tl).map Prod.fst →
      k ∈ tl.map Prod.fst ∨ ∃ b ∈ l, k = f b := by
  induction l with
  | nil => intro tl k hk; exact Or.inl hk
  | cons b l ih =>
    intro tl k hk
    rw [List.foldl_cons] at hk
    rcases ih (appendAt (f b) (g b) tl) k hk with h1 | ⟨b2, hb2, h1⟩
    · rcases appendAt_keys tl (f b) (g b) k h1 with h2 | h2
      · exact Or.inl h2
      · exact Or.inr ⟨b, List.mem_cons_self b l, h2⟩
    · exact Or.inr ⟨b2, List.mem_cons_of_mem b hb2, h1⟩

/-- Every key of the lab parser's timeline has the DD-Mon-YYYY shape. -/
theorem labParse_keys (text : String) (d : String)
    (hd : d ∈ (labParse text).map Prod.fst) : isDayMonYear d = true := by
  unfold labParse at hd
  split at hd
  · simp at hd
  · rcases foldl_appendAt_keys (fun t : LabTest => t.date)
        (fun t => (t.test_name, labDetailsClean t.raw_details))
        (parseAllTests text) [] d hd with h1 | ⟨t, ht, h1⟩
    · simp at h1
    · rw [h1]
      exact parseAllTests_dates text t ht

/-- Every authored-date key of the medical-records timeline has the
    DD-Mon-YYYY shape or is "UNKNOWN". -/
theorem parseDmoMetadata_date (sec : String) :
    isDayMonYear (parseDmoMetadata sec).1 = true ∨
      (parseDmoMetadata sec).1 = "UNKNOWN" := by
  cases ha : authoredSearch sec with
  | some d =>
    left
    have : (parseDmoMetadata sec).1 = d := by simp [parseDmoMetadata, ha]
    rw [this]
    exact authoredSearch_shape sec d ha
  | none =>
    right
    simp [parseDmoMetadata, ha]

theorem buildTimeline_keys (headers : List String)
    (monthMap abbrMap : List (String × String)) (secs : List String)
    (d : String)
    (hd : d ∈ (buildTimelineFromSections headers monthMap abbrMap secs).map Prod.fst) :
    isDayMonYear d = true ∨ d = "UNKNOWN" := by
  unfold buildTimelineFromSections at hd
  rcases foldl_appendAt_keys
      (fun sec => (buildTimelineEntry headers monthMap abbrMap sec).1)
      (fun sec => (buildTimelineEntry headers monthMap abbrMap sec).2)
      secs [] d hd with h1 | ⟨sec, hsec, h1⟩
  · simp at h1
  · rw [h1]
    exact parseDmoMetadata_date sec

/-! Key provenance through the merger. -/

theorem recordStep_ok (ft fn d : String) (raw : PyVal) (st st2 : MergeSt)
    (h : recordStep ft fn d raw st = Except.ok st2) :
    ∃ ev, st2 = ⟨appendAt d ev st.timeline, some ev⟩ := by
  unfold recordStep at h
  split at h
  · simp at h
    exact ⟨_, h.symm⟩
  · split at h
    · split at h
      · simp at h
        exact ⟨_, h.symm⟩
      · exact absurd h (by simp)
    · split at h
      · simp at h
        exact ⟨_, h.symm⟩
      · exact absurd h (by simp)

theorem recordsFold_keys (recs : List PyVal) :
    ∀ (ft fn d : String) (st st2 : MergeSt),
      recordsFold ft fn d st recs = Except.ok st2 →
      ∀ k, k ∈ st2.timeline.map Prod.fst →
        k ∈ st.timeline.map Prod.fst ∨ k = d := by
  induction recs with
  | nil =>
    intro ft fn d st st2 h k hk
    simp [recordsFold] at h
    rw [← h] at hk
    exact Or.inl hk
  | cons raw rest ih =>
    intro ft fn d st st2 h k hk
    rw [show recordsFold ft fn d st (raw :: rest) =
        (match recordStep ft fn d raw st with
         | Except.error e => Except.error e
         | Except.ok stm => recordsFold ft fn d stm rest) from rfl] at h
    cases hs : recordStep ft fn d raw st with
    | error e => rw [hs] at h; exact absurd h (by simp)
    | ok stm =>
      rw [hs] at h
      obtain ⟨ev, hstm⟩ := recordStep_ok ft fn d raw st stm hs
      rcases ih ft fn d stm st2 h k hk with h1 | h1
      · rw [hstm] at h1
        rcases appendAt_keys st.timeline d ev k h1 with h2 | h2
        · exact Or.inl h2
        · exact Or.inr h2
      · exact Or.inr h1

theorem entriesFold_keys (entries : List (String × PyVal)) :
    ∀ (ft fn : String) (st st2 : MergeSt),
      entriesFold ft fn st entries = Except.ok st2 →
      ∀ k, k ∈ st2.timeline.map Prod.fst →
        k ∈ st.timeline.map Prod.fst ∨ ∃ pr ∈ entries, k = pr.1 := by
  induction entries with
  | nil =>
    intro ft fn st st2 h k hk
    simp [entriesFold] at h
    rw [← h] at hk
    exact Or.inl hk
  | cons e rest ih =>
    intro ft fn st st2 h k hk
    cases e with
    | mk d v =>
      rw [entriesFold_cons] at h
      by_cases hv : isListV v = true
      · rw [if_pos hv] at h
        cases hr : recordsFold ft fn d st (listItems v) with
        | error e2 => rw [hr] at h; exact absurd h (by simp)
        | ok stm =>
          rw [hr] at h
          rcases ih ft fn stm st2 h k hk with h1 | ⟨pr, hpr, h1⟩
          · rcases recordsFold_keys (listItems v) ft fn d st stm hr k h1 with h2 | h2
            · exact Or.inl h2
            · exact Or.inr ⟨(d, v), List.mem_cons_self _ _, h2⟩
          · exact Or.inr ⟨pr, List.mem_cons_of_mem _ hpr, h1⟩
      · rw [if_neg hv] at h
        rcases ih ft fn st st2 h k hk with h1 | ⟨pr, hpr, h1⟩
        · exact Or.inl h1
        · exact Or.inr ⟨pr, List.mem_cons_of_mem _ hpr, h1⟩

theorem mergeResults_keys (results : List DocResult) :
    ∀ (st st2 : MergeSt), mergeResults st results = Except.ok st2 →
      ∀ k, k ∈ st2.timeline.map Prod.fst →
        k ∈ st.timeline.map Prod.fst ∨
          ∃ r ∈ results, k ∈ r.structured_data.map Prod.fst := by
  induction results with
  | nil =>
    intro st st2 h k hk
    simp [mergeResults] at h
    rw [← h] at hk
    exact Or.inl hk
  | cons r rest ih =>
    intro st st2 h k hk
    rw [mergeResults_cons] at h
    cases hdoc : docProcess st r with
    | error e => rw [hdoc] at h; exact absurd h (by simp)
    | ok stm =>
      rw [hdoc] at h
      have hstep : ∀ k2, k2 ∈ stm.timeline.map Prod.fst →
          k2 ∈ st.timeline.map Prod.fst ∨ k2 ∈ r.structured_data.map Prod.fst := by
        intro k2 hk2
        unfold docProcess at hdoc
        split at hdoc
        · simp at hdoc
          rw [← hdoc] at hk2
          exact Or.inl hk2
        · rcases entriesFold_keys r.structured_data r.file_type
              r.original_filename st stm hdoc k2 hk2 with h1 | ⟨pr, hpr, h1⟩
          · exact Or.inl h1
          · right
            rw [h1]
            exact List.mem_map_of_mem Prod.fst hpr
      rcases ih stm st2 h k hk with h1 | ⟨r2, hr2, h1⟩
      · rcases hstep k h1 with h2 | h2
        · exact Or.inl h2
        · exact Or.inr ⟨r, List.mem_cons_self r rest, h2⟩
      · exact Or.inr ⟨r2, List.mem_cons_of_mem r hr2, h1⟩

/-- C9. Every top-level date key of (a) the lab parser's structured
    output, (b) the medical-records parser's structured output, and hence
    (c) the combined timeline built by the merger (whose keys all come
    from the per-document structured outputs) is either a DD-Mon-YYYY
    string (one or two day digits, three letters, four year digits) or
    the sentinel "UNKNOWN" — for the lab parser the shape always holds. -/
theorem c9_date_key_shapes :
    (∀ (text d : String), d ∈ (labParse text).map Prod.fst →
      isDayMonYear d = true) ∧
    (∀ (headers : List String) (monthMap abbrMap : List (String × String))
       (secs : List String) (d : String),
      d ∈ (buildTimelineFromSections headers monthMap abbrMap secs).map Prod.fst →
      isDayMonYear d = true ∨ d = "UNKNOWN") ∧
    (∀ (results : List DocResult) (st2 : MergeSt),
      mergeResults mergeInit results = Except.ok st2 →
      ∀ d, d ∈ st2.timeline.map Prod.fst →
        ∃ r ∈ results, d ∈ r.structured_data.map Prod.fst) := by
  refine ⟨labParse_keys, buildTimeline_keys, ?_⟩
  intro results st2 h d hd
  rcases mergeResults_keys results mergeInit st2 h d hd with h1 | h1
  · simp [mergeInit] at h1
  · exact h1

/-- C9 witness: a concrete lab text yields the shaped key "20-Jun-2025", a
    concrete section batch yields the "UNKNOWN" key, and a concrete merge's
    only key comes from its input document. -/
theorem c9_date_key_shapes_witness :
    (("20-Jun-2025" ∈ (labParse "20-Jun-2025 08:00\nGlucose\n5.4").map Prod.fst) ∧
      isDayMonYear "20-Jun-2025" = true) ∧
    (("UNKNOWN" ∈ (buildTimelineFromSections [] [] [] ["plain"]).map Prod.fst) ∧
      (isDayMonYear "UNKNOWN" = true ∨ "UNKNOWN" = "UNKNOWN")) ∧
    ∃ r ∈ [c4wLab], "1-Jan-2020" ∈ r.structured_data.map Prod.fst := by
  refine ⟨⟨?_, ?_⟩, ⟨?_, ?_⟩, ?_⟩
  · decide
  · exact c9_date_key_shapes.1 "20-Jun-2025 08:00\nGlucose\n5.4" "20-Jun-2025"
      (by decide)
  · decide
  · exact c9_date_key_shapes.2.1 [] [] [] ["plain"] "UNKNOWN" (by decide)
  · exact c9_date_key_shapes.2.2 [c4wLab]
      ⟨[("1-Jan-2020",
         [.dict [("record_type", .str "Lab Results"),
                 ("source_file", .str "lab.pdf"),
                 ("tests", .lst [.dict [("t", .str "v")]])]])],
       some (.dict [("record_type", .str "Lab Results"),
                 ("source_file", .str "lab.pdf"),
                 ("tests", .lst [.dict [("t", .str "v")]])])⟩
      rfl "1-Jan-2020" (by simp)

/-! ## C1 — the Lab Results branch of `_process_single_file` always
    produces the error sentinel, so no Lab Results document contributes to
    the combined timeline -/

theorem processSingleFile_lab_skipped (fn : String)
    (med : Except String (List (String × PyVal))) :
    skipResult (processSingleFile fn "Lab Results" med) = true := rfl

/-- C1. Every file classified "Lab Results" makes `_process_single_file`
    return the `{"error": "Parsing failed: ..."}` sentinel — the
    zero-argument `LabResultParser()` call raises because `__init__`
    requires `pdf_path` (and the class has no `build_timeline`) — and
    consequently, for any batch, `create_combined_patient_timeline`
    produces exactly the timeline of the batch with every Lab Results
    document removed: no Lab Results document ever contributes an event. -/
theorem c1_lab_results_always_error :
    (∀ fn (med : Except String (List (String × PyVal))),
      (processSingleFile fn "Lab Results" med).structured_data =
        [("error", .str ("Parsing failed: " ++
          "__init__ missing 1 required positional argument: pdf_path"))]) ∧
    (∀ (inputs : List (String × String × Except String (List (String × PyVal))))
       (st : MergeSt),
      mergeResults st (inputs.map fun t => processSingleFile t.1 t.2.1 t.2.2) =
        mergeResults st ((inputs.filter fun t => t.2.1 != "Lab Results").map
          fun t => processSingleFile t.1 t.2.1 t.2.2)) := by
  constructor
  · intro fn med; rfl
  · intro inputs
    induction inputs with
    | nil => intro st; rfl
    | cons t ts ih =>
      intro st
      by_cases h : t.2.1 = "Lab Results"
      · have hb : (t.2.1 != "Lab Results") = false := by
          simp [bne_iff_ne, h]
        rw [List.filter_cons, hb, List.map_cons, mergeResults_cons, h,
          docProcess_skip st _ (processSingleFile_lab_skipped t.1 t.2.2)]
        exact ih st
      · have hb : (t.2.1 != "Lab Results") = true := by
          simp [bne_iff_ne, h]
        rw [List.filter_cons, hb]
        simp only [if_true]
        rw [List.map_cons, List.map_cons, mergeResults_cons, mergeResults_cons]
        cases docProcess st (processSingleFile t.1 t.2.1 t.2.2) with
        | error e => rfl
        | ok st2 => exact ih st2

/-! ## C10 — the normalizer is NOT idempotent -/

/-- The natural month table for `normalize_formatting`'s YAML `month_map`. -/
def stdMonthMap : List (String × String) :=
  [("Jan", "01"), ("Feb", "02"), ("Mar", "03"), ("Apr", "04"), ("May", "05"),
   ("Jun", "06"), ("Jul", "07"), ("Aug", "08"), ("Sep", "09"), ("Oct", "10"),
   ("Nov", "11"), ("Dec", "12")]

/-- C10 (counterexample). Re-running the normalizer on its own output can
    change it on both pipelines: on the medical side the leading-bar
    pattern `^\s*\|\s*` removes only one leading bar per pass
    ("||x" → "|x" → "x"), and on the lab side removing a cleanup word can
    expose a new cleanup match ("IFinal1" → "I 1", and "I 1" matches
    `I\s*1` → ""). -/
theorem c10_counterexample :
    medNormalize stdMonthMap [] "||x" = "|x" ∧
    medNormalize stdMonthMap [] (medNormalize stdMonthMap [] "||x") = "x" ∧
    ¬ medNormalize stdMonthMap [] (medNormalize stdMonthMap [] "||x") =
      medNormalize stdMonthMap [] "||x" ∧
    labDetailsClean "IFinal1" = "I 1" ∧
    labDetailsClean (labDetailsClean "IFinal1") = "" ∧
    ¬ labDetailsClean (labDetailsClean "IFinal1") = labDetailsClean "IFinal1" :=
  ⟨rfl, rfl, by decide, rfl, rfl, by decide⟩

theorem stripChars_idem (l : List Char) :
    stripChars (stripChars l) = stripChars l := by
  have hdw : dropWsEnd = List.rdropWhile isPySpace := by funext cs; rfl
  unfold stripChars
  have h1 : (dropWsEnd (l.dropWhile isPySpace)).dropWhile isPySpace =
      dropWsEnd (l.dropWhile isPySpace) := by
    rw [List.dropWhile_eq_self_iff]
    intro hl
    obtain ⟨t, ht⟩ : dropWsEnd (l.dropWhile isPySpace) <+: l.dropWhile isPySpace := by
      rw [hdw]
      exact List.rdropWhile_prefix isPySpace _
    have hwl : 0 < (l.dropWhile isPySpace).length := by
      rw [← ht]
      simp only [List.length_append]
      omega
    have hw0 : ¬ isPySpace ((l.dropWhile isPySpace).get ⟨0, hwl⟩) = true :=
      List.dropWhile_get_zero_not isPySpace l hwl
    have h0 : (l.dropWhile isPySpace)[0]? =
        (dropWsEnd (l.dropWhile isPySpace))[0]? := by
      conv_lhs => rw [← ht]
      exact List.getElem?_append_left hl
    rw [List.getElem?_eq_getElem hwl, List.getElem?_eq_getElem hl] at h0
    have hsame : (dropWsEnd (l.dropWhile isPySpace)).get ⟨0, hl⟩ =
        (l.dropWhile isPySpace).get ⟨0, hwl⟩ := by
      simp only [List.get_eq_getElem]
      exact (Option.some_inj.mp h0).symm
    rw [hsame]
    exact hw0
  rw [h1]
  rw [hdw, List.rdropWhile_eq_self_iff]
  intro hl
  exact List.rdropWhile_last_not isPySpace _ hl

theorem pyStrip_idem (s : String) : pyStrip (pyStrip s) = pyStrip s := by
  show String.mk (stripChars (stripChars s.data)) = String.mk (stripChars s.data)
  rw [stripChars_idem]

/-- `normalize_formatting` output contains no newline. -/
theorem normalizeFormatting_no_newline (monthMap abbrMap : List (String × String))
    (s : String) : ∀ c ∈ (normalizeFormatting monthMap abbrMap s).data,
      ¬ c = '\n' := by
  intro c hc hcn
  subst hcn
  unfold normalizeFormatting at hc
  simp only at hc
  rw [List.mem_filter] at hc
  obtain ⟨hmem, _⟩ := hc
  rw [List.mem_map] at hmem
  obtain ⟨x, _, hx⟩ := hmem
  by_cases hxe : x = '\n'
  · rw [if_pos hxe] at hx
    exact absurd hx (by decide)
  · rw [if_neg hxe] at hx
    exact hxe hx

/-- `normalize_formatting` output is ASCII. -/
theorem normalizeFormatting_ascii (monthMap abbrMap : List (String × String))
    (s : String) : ∀ c ∈ (normalizeFormatting monthMap abbrMap s).data,
      decide (c.toNat ≤ 127) = true := by
  intro c hc
  unfold normalizeFormatting at hc
  simp only at hc
  rw [List.mem_filter] at hc
  exact hc.2

theorem map_eq_self_of_fix (f : Char → Char) :
    ∀ (l : List Char), (∀ c ∈ l, f c = c) → l.map f = l := by
  intro l
  induction l with
  | nil => intro _; rfl
  | cons c t ih =>
    intro h
    rw [List.map_cons, h c (List.mem_cons_self c t),
      ih fun x hx => h x (List.mem_cons_of_mem c hx)]

/-- C10 (amended). The normalizer is idempotent exactly when a second pass
    finds nothing more to rewrite: for the medical pipeline, if the
    admin-noise removal, the date canonicalization and the abbreviation
    expansion each leave the first pass's output unchanged, then the full
    pipeline is idempotent on that input (the newline and non-ASCII steps
    never find anything on a first pass's output); for the lab pipeline,
    if the cleanup-word substitution and the two whitespace collapses each
    leave the first pass's output unchanged, the pipeline is idempotent
    (the final strip always is).  The counterexamples show the fixpoint
    conditions are not automatic. -/
theorem c10_amended :
    (∀ (monthMap abbrMap : List (String × String)) (x : String),
      removeAdminNoise (medNormalize monthMap abbrMap x) =
        medNormalize monthMap abbrMap x →
      String.mk (dateSubGo monthMap
          ((medNormalize monthMap abbrMap x).data.length + 1)
          (medNormalize monthMap abbrMap x).data) =
        medNormalize monthMap abbrMap x →
      abbrMap.foldl (fun acc pr => abbrSub pr.1 pr.2 acc)
          (medNormalize monthMap abbrMap x) =
        medNormalize monthMap abbrMap x →
      medNormalize monthMap abbrMap (medNormalize monthMap abbrMap x) =
        medNormalize monthMap abbrMap x) ∧
    (∀ x : String,
      reSub labCleanupRE " " (labDetailsClean x) = labDetailsClean x →
      reSub lineCollapseRE "\n" (labDetailsClean x) = labDetailsClean x →
      reSub spaceCollapseRE " " (labDetailsClean x) = labDetailsClean x →
      labDetailsClean (labDetailsClean x) = labDetailsClean x) := by
  constructor
  · intro monthMap abbrMap x h1 h2 h3
    show normalizeFormatting monthMap abbrMap
      (removeAdminNoise (medNormalize monthMap abbrMap x)) = _
    rw [h1]
    have hy : medNormalize monthMap abbrMap x =
        normalizeFormatting monthMap abbrMap (removeAdminNoise x) := rfl
    show String.mk
        (((abbrMap.foldl (fun acc pr => abbrSub pr.1 pr.2 acc)
            (String.mk (dateSubGo monthMap
              ((medNormalize monthMap abbrMap x).data.length + 1)
              (medNormalize monthMap abbrMap x).data))).data.map
            fun c => if c = '\n' then ' ' else c).filter
          fun c => c.toNat ≤ 127) = medNormalize monthMap abbrMap x
    rw [h2, h3]
    have hmap : ((medNormalize monthMap abbrMap x).data.map
        fun c => if c = '\n' then ' ' else c) =
        (medNormalize monthMap abbrMap x).data := by
      apply map_eq_self_of_fix
      intro c hc
      rw [if_neg]
      exact normalizeFormatting_no_newline monthMap abbrMap
        (removeAdminNoise x) c hc
    rw [hmap]
    have hfil : ((medNormalize monthMap abbrMap x).data.filter
        fun c => c.toNat ≤ 127) = (medNormalize monthMap abbrMap x).data := by
      rw [List.filter_eq_self]
      intro c hc
      exact normalizeFormatting_ascii monthMap abbrMap (removeAdminNoise x) c hc
    rw [hfil]
  · intro x h1 h2 h3
    show pyStrip (reSub spaceCollapseRE " "
      (reSub lineCollapseRE "\n" (reSub labCleanupRE " " (labDetailsClean x)))) = _
    rw [h1, h2, h3]
    show pyStrip (pyStrip _) = _
    exact pyStrip_idem _

/-- C10 amended witness: on the already-normal text "a b" both pipelines
    are fixpoints, and idempotence holds there. -/
theorem c10_amended_witness :
    (removeAdminNoise (medNormalize stdMonthMap [] "a b") =
        medNormalize stdMonthMap [] "a b" ∧
      String.mk (dateSubGo stdMonthMap
          ((medNormalize stdMonthMap [] "a b").data.length + 1)
          (medNormalize stdMonthMap [] "a b").data) =
        medNormalize stdMonthMap [] "a b" ∧
      ([] : List (String × String)).foldl (fun acc pr => abbrSub pr.1 pr.2 acc)
          (medNormalize stdMonthMap [] "a b") =
        medNormalize stdMonthMap [] "a b" ∧
      medNormalize stdMonthMap [] (medNormalize stdMonthMap [] "a b") =
        medNormalize stdMonthMap [] "a b") ∧
    (reSub labCleanupRE " " (labDetailsClean "a b") = labDetailsClean "a b" ∧
      reSub lineCollapseRE "\n" (labDetailsClean "a b") = labDetailsClean "a b" ∧
      reSub spaceCollapseRE " " (labDetailsClean "a b") = labDetailsClean "a b" ∧
      labDetailsClean (labDetailsClean "a b") = labDetailsClean "a b") :=
  ⟨⟨rfl, rfl, rfl, c10_amended.1 stdMonthMap [] "a b" rfl rfl rfl⟩,
   ⟨rfl, rfl, rfl, c10_amended.2 "a b" rfl rfl rfl⟩⟩

end BT4103
